import Mathlib

/-!
Verification of the multi-criteria route optimization engine of the pukpuk
backend (`app/infrastructure/repositories/route_optimization.py` together
with the entity declarations in
`app/application/domain/entities/route_optimization.py`).

Modelling conventions:
* Python floats are modelled by elements of a `LinearOrderedField`
  (instantiated at `ℚ` for executable witnesses and at `ℝ` for the
  trigonometric geometry of `_haversine_distance`).
* Python's `int(x)` truncation, and `round(x)` / `round(x, 1)`
  (round-half-to-even) are modelled by `pyInt`, `pyRound` and `pyRound1`.
* Python code that can raise (`ZeroDivisionError`, pydantic validation,
  `ValueError` for unknown codes, `math` domain errors) is modelled with
  `Except`; the plain arithmetic is kept in separate total definitions,
  one per source expression, so the checked variants only add the guards.
* The pydantic entity `RouteOption` declares `waypoints` as a required
  field; the model keeps the field as an `Option` whose `none` value means
  "keyword argument not supplied", and pydantic's required-field check is
  the predicate `routeOptionValid`.
-/

namespace PukPuk

/-! ## Python rounding primitives -/

/-- Python `int(x)`: truncation toward zero. -/
def pyInt {K : Type*} [LinearOrderedField K] [FloorRing K] (x : K) : ℤ :=
  if x < 0 then -⌊-x⌋ else ⌊x⌋

/-- Python `round(x)`: round half to even, returning an integer. -/
def pyRound {K : Type*} [LinearOrderedField K] [FloorRing K] (x : K) : ℤ :=
  if x - ⌊x⌋ < 1/2 then ⌊x⌋
  else if (1:K)/2 < x - ⌊x⌋ then ⌊x⌋ + 1
  else if ⌊x⌋ % 2 = 0 then ⌊x⌋ else ⌊x⌋ + 1

/-- Python `round(x, 1)`: round to one decimal place. -/
def pyRound1 {K : Type*} [LinearOrderedField K] [FloorRing K] (x : K) : K :=
  (pyRound (10 * x) : K) / 10

theorem pyRound_ge_floor {K : Type*} [LinearOrderedField K] [FloorRing K]
    (x : K) : ⌊x⌋ ≤ pyRound x := by
  unfold pyRound
  split
  · exact le_refl _
  · split
    · omega
    · split <;> omega

theorem pyRound_le_floor_add_one {K : Type*} [LinearOrderedField K] [FloorRing K]
    (x : K) : pyRound x ≤ ⌊x⌋ + 1 := by
  unfold pyRound
  split
  · omega
  · split
    · exact le_refl _
    · split <;> omega

theorem pyRound_mono {K : Type*} [LinearOrderedField K] [FloorRing K]
    {x y : K} (h : x ≤ y) : pyRound x ≤ pyRound y := by
  have hfl : ⌊x⌋ ≤ ⌊y⌋ := Int.floor_le_floor h
  rcases lt_or_eq_of_le hfl with hlt | heq
  · have h1 := pyRound_le_floor_add_one x
    have h2 := pyRound_ge_floor y
    omega
  · have hfr : x - (⌊x⌋ : K) ≤ y - (⌊x⌋ : K) := sub_le_sub_right h _
    unfold pyRound
    rw [← heq]
    split_ifs <;> first | omega | linarith

theorem pyRound1_mono {K : Type*} [LinearOrderedField K] [FloorRing K]
    {x y : K} (h : x ≤ y) : pyRound1 x ≤ pyRound1 y := by
  unfold pyRound1
  have := pyRound_mono (K := K) (mul_le_mul_of_nonneg_left h (by norm_num : (0:K) ≤ 10))
  have hc : ((pyRound (10*x) : ℤ) : K) ≤ ((pyRound (10*y) : ℤ) : K) := by
    exact_mod_cast this
  linarith

/-! ## Data model (entities/route_optimization.py)

Coordinates (`[lat, lng]` two-element float lists in Python) are modelled
as pairs. -/

/-- Entity `Location`. -/
structure LocationT (K : Type*) where
  code : String
  name : String
  coordinates : K × K
  type : String
  address : String
  icon_url : String

/-- Entity `Vehicle`. -/
structure VehicleT (K : Type*) where
  code : String
  name : String
  min_capacity : K
  max_capacity : K
  fuel_consumption : K
  average_speed : K
  co2_factor : K
  type : String

/-- Entity `RouteOptimizationRequest`. -/
structure RouteRequest (K : Type*) where
  origin : String
  destination : String
  vehicle_type : String
  load_capacity : K

/-- Entity `RouteOption`.  `waypoints = none` models the keyword argument
being absent from the Python constructor call. -/
structure RouteOptionT (K : Type*) where
  id : String
  distance : K
  duration : String
  fuel_cost : K
  toll_cost : K
  co2 : K
  path : String
  waypoints : Option (List (K × K))

/-- Pydantic required-field validation for `RouteOption`: the entity
declares `waypoints: List[List[float]]` with no default, so construction
succeeds exactly when the argument was supplied. -/
def routeOptionValid {K : Type*} (o : RouteOptionT K) : Bool :=
  o.waypoints.isSome

/-- Entity `RouteOptimizationResponse`. -/
structure RouteResponse (K : Type*) where
  fastest : RouteOptionT K
  cheapest : RouteOptionT K
  greenest : RouteOptionT K

/-- Entity `RouteConfiguration` (the memoization document). -/
structure RouteConfigT (K : Type*) where
  origin : String
  destination : String
  vehicle_type : String
  load_capacity : K
  fastest_distance : K
  cheapest_distance : K
  greenest_distance : K
  fastest_path : List String
  cheapest_path : List String
  greenest_path : List String

/-- `location_dict = {loc.code: loc for loc in locations}`: later
occurrences of a code overwrite earlier ones, and lookup scans for the
match.  For lists whose codes are distinct a plain first-match lookup
agrees, which is what the scan below implements together with
last-occurrence overwrite semantics. -/
def lookupLoc {K : Type*} : List (LocationT K) → String → Option (LocationT K)
  | [], _ => none
  | l :: rest, c =>
    match lookupLoc rest c with
    | some l' => some l'
    | none => if l.code = c then some l else none

/-! ## Route valuation engine (`_create_route_option`, lines 151-178) -/

/-- `load_factor = min(1.0 + (load - min_cap) / (max_cap - min_cap), 1.5)`
(line 113 and line 217). -/
def loadFactor {K : Type*} [LinearOrderedField K] (v : VehicleT K) (load : K) : K :=
  min (1 + (load - v.min_capacity) / (v.max_capacity - v.min_capacity)) (3/2)

/-- `duration_hours = distance / speed` (line 153). -/
def durationHours {K : Type*} [LinearOrderedField K] (distance speed : K) : K :=
  distance / speed

/-- Duration string `f"{hours}h {minutes}min"` (lines 154-156). -/
def formatDuration {K : Type*} [LinearOrderedField K] [FloorRing K] (dh : K) : String :=
  let hours := pyInt dh
  let minutes := pyInt ((dh - (hours : K)) * 60)
  toString hours ++ "h " ++ toString minutes ++ "min"

/-- Path description (lines 163-168). -/
def pathDescription {K : Type*} (path : List String) (locations : List (LocationT K)) :
    String :=
  if 2 ≤ path.length then
    let origin_name :=
      match lookupLoc locations (path.headD "") with
      | some l => l.name
      | none => path.headD ""
    let dest_name :=
      match lookupLoc locations (path.getLastD "") with
      | some l => l.name
      | none => path.getLastD ""
    origin_name ++ " → " ++ dest_name
  else "Invalid path"

/-- `_create_route_option` (lines 151-178).  The `RouteOption` constructor
call omits the required `waypoints` keyword, recorded here as `none`. -/
def createRouteOption {K : Type*} [LinearOrderedField K] [FloorRing K]
    (option_type : String) (distance : K) (path : List String)
    (locations : List (LocationT K)) (speed fuel_consumption fuel_price
    toll_cost_per_km co2_factor load_factor : K) : RouteOptionT K :=
  let duration_hours := durationHours distance speed
  let fuel_cost := distance * fuel_price * fuel_consumption
  let toll_cost := distance * toll_cost_per_km
  let co2 := distance * co2_factor / load_factor
  { id := option_type
    distance := pyRound1 distance
    duration := formatDuration duration_hours
    fuel_cost := (pyRound fuel_cost : K)
    toll_cost := (pyRound toll_cost : K)
    co2 := pyRound1 co2
    path := pathDescription path locations
    waypoints := none }

/-! ## `_compute_optimized_routes` (lines 105-149), with the direct
haversine distance abstracted out as a parameter so that the arithmetic
can be studied over `ℚ` as well as over `ℝ`. -/

/-- Lines 112-149 of `_compute_optimized_routes`, given the already
computed `direct_distance`. -/
def computeRoutesFromDistance {K : Type*} [LinearOrderedField K] [FloorRing K]
    (direct_distance : K) (origin destination : String)
    (locations : List (LocationT K)) (v : VehicleT K) (load : K) :
    RouteResponse K :=
  let load_factor := loadFactor v load
  let adjusted_speed := v.average_speed / load_factor
  let adjusted_fuel_consumption := v.fuel_consumption * load_factor
  let fuel_price : K := 15000
  let base_toll_cost_per_km : K := 500
  let fastest_dist := direct_distance
  let cheapest_dist := direct_distance * (11/10)
  let greenest_dist := direct_distance * (105/100)
  let fastest := createRouteOption "fastest" fastest_dist [origin, destination]
    locations adjusted_speed adjusted_fuel_consumption fuel_price
    (base_toll_cost_per_km * (12/10)) v.co2_factor load_factor
  let cheapest := createRouteOption "cheapest" cheapest_dist [origin, destination]
    locations (adjusted_speed * (9/10)) (adjusted_fuel_consumption * (95/100))
    fuel_price (base_toll_cost_per_km * (7/10)) v.co2_factor load_factor
  let greenest := createRouteOption "greenest" greenest_dist [origin, destination]
    locations (adjusted_speed * (8/10)) (adjusted_fuel_consumption * (9/10))
    fuel_price (base_toll_cost_per_km * (9/10)) (v.co2_factor * (9/10)) load_factor
  { fastest := fastest, cheapest := cheapest, greenest := greenest }

/-! ## Mock reference data (`_get_locations`, `_get_vehicles`, lines 80-103) -/

def plantA (K : Type*) [LinearOrderedField K] : LocationT K :=
  ⟨"plant-a", "Plant A - Karawang", (-63074/10000, 1073103/10000), "plant", "Karawang", "https://example.com/plant.png"⟩

def plantB (K : Type*) [LinearOrderedField K] : LocationT K :=
  ⟨"plant-b", "Plant B - Surabaya", (-71612/10000, 1126535/10000), "plant", "Surabaya", "https://example.com/plant.png"⟩

def mockLocations (K : Type*) [LinearOrderedField K] : List (LocationT K) :=
  [ plantA K,
    plantB K,
    ⟨"warehouse-a", "Warehouse A - Jakarta", (-62088/10000, 1068166/10000), "warehouse", "Jakarta", "https://example.com/warehouse.png"⟩,
    ⟨"warehouse-b", "Warehouse B - Bandung", (-6595/1000, 1068166/10000), "warehouse", "Bandung", "https://example.com/warehouse.png"⟩,
    ⟨"kios-bandung", "Kios Bandung", (-69175/10000, 1076191/10000), "kiosk", "Bandung", "https://example.com/kiosk.png"⟩,
    ⟨"kios-tasikmalaya", "Kios Tasikmalaya", (-73156/10000, 1082048/10000), "kiosk", "Tasikmalaya", "https://example.com/kiosk.png"⟩,
    ⟨"kios-sumedang", "Kios Sumedang", (-69858/10000, 1078148/10000), "kiosk", "Sumedang", "https://example.com/kiosk.png"⟩,
    ⟨"kios-garut", "Kios Garut", (-7207/1000, 1079177/10000), "kiosk", "Garut", "https://example.com/kiosk.png"⟩ ]

def truckSmall (K : Type*) [LinearOrderedField K] : VehicleT K :=
  ⟨"truck-small", "Small Truck (3-5 tons)", 3, 5, 8, 60, 7/20, "truck"⟩

def truckMedium (K : Type*) [LinearOrderedField K] : VehicleT K :=
  ⟨"truck-medium", "Medium Truck (5-8 tons)", 5, 8, 6, 55, 2/5, "truck"⟩

def truckLarge (K : Type*) [LinearOrderedField K] : VehicleT K :=
  ⟨"truck-large", "Large Truck (8-12 tons)", 8, 12, 5, 50, 9/20, "truck"⟩

def mockVehicles (K : Type*) [LinearOrderedField K] : List (VehicleT K) :=
  [truckSmall K, truckMedium K, truckLarge K]

/-! ## Load factor facts -/

theorem loadFactor_le_three_halves {K : Type*} [LinearOrderedField K]
    (v : VehicleT K) (load : K) : loadFactor v load ≤ 3/2 :=
  min_le_right _ _

theorem one_le_loadFactor {K : Type*} [LinearOrderedField K]
    {v : VehicleT K} {load : K} (hcap : v.min_capacity < v.max_capacity)
    (hload : v.min_capacity ≤ load) : 1 ≤ loadFactor v load := by
  unfold loadFactor
  refine le_min ?_ (by norm_num)
  have h1 : 0 ≤ (load - v.min_capacity) / (v.max_capacity - v.min_capacity) :=
    div_nonneg (sub_nonneg.2 hload) (sub_pos.2 hcap).le
  linarith

theorem loadFactor_pos {K : Type*} [LinearOrderedField K]
    {v : VehicleT K} {load : K} (hcap : v.min_capacity < v.max_capacity)
    (hload : v.min_capacity ≤ load) : 0 < loadFactor v load :=
  lt_of_lt_of_le one_pos (one_le_loadFactor hcap hload)

theorem loadFactor_mono {K : Type*} [LinearOrderedField K]
    {v : VehicleT K} {load load' : K} (hcap : v.min_capacity < v.max_capacity)
    (h : load ≤ load') : loadFactor v load ≤ loadFactor v load' := by
  unfold loadFactor
  refine min_le_min (add_le_add_left ?_ 1) le_rfl
  exact div_le_div_of_nonneg_right (sub_le_sub_right h _) (sub_pos.2 hcap).le

/-- C5, counterexample: with the medium truck (`min_capacity = 5`,
`max_capacity = 8`, so `min < max`) and `requested_load = 3`, the computed
load factor is `1/3`, which is smaller than 1: `_compute_optimized_routes`
only caps the factor from above and never clamps it to 1 from below. -/
theorem loadFactor_below_one_cex :
    loadFactor (truckMedium ℚ) 3 = 1/3 ∧ ¬ (1 ≤ loadFactor (truckMedium ℚ) 3) := by
  constructor <;> norm_num [loadFactor, truckMedium, min_def]

/-- C5, amended: for every vehicle with `min_capacity < max_capacity` the
computed load factor is at most the configured upper bound `1.5`; it is at
least 1 only under the additional assumption that the requested load is at
least `min_capacity` (for smaller loads it drops below 1, see the
counterexample). -/
theorem loadFactor_bounds {K : Type*} [LinearOrderedField K]
    (v : VehicleT K) (load : K) (hcap : v.min_capacity < v.max_capacity) :
    loadFactor v load ≤ 3/2 ∧ (v.min_capacity ≤ load → 1 ≤ loadFactor v load) :=
  ⟨loadFactor_le_three_halves v load, fun hload => one_le_loadFactor hcap hload⟩

/-- Witness for `loadFactor_bounds` at the small truck and load 4. -/
theorem loadFactor_bounds_witness :
    (truckSmall ℚ).min_capacity < (truckSmall ℚ).max_capacity ∧
      loadFactor (truckSmall ℚ) 4 ≤ 3/2 ∧ 1 ≤ loadFactor (truckSmall ℚ) 4 :=
  ⟨by norm_num [truckSmall],
   (loadFactor_bounds (truckSmall ℚ) 4 (by norm_num [truckSmall])).1,
   (loadFactor_bounds (truckSmall ℚ) 4 (by norm_num [truckSmall])).2
     (by norm_num [truckSmall])⟩

/-! ## C1: behaviour of the route variants as the requested load grows -/

/-- The `duration_hours` computed for the fastest variant
(`distance / adjusted_speed`, lines 114 and 153). -/
def fastestDurationHours {K : Type*} [LinearOrderedField K]
    (d : K) (v : VehicleT K) (load : K) : K :=
  durationHours d (v.average_speed / loadFactor v load)

/-- The `duration_hours` computed for the cheapest variant
(`(distance * 1.1) / (adjusted_speed * 0.9)`, lines 129, 140, 153). -/
def cheapestDurationHours {K : Type*} [LinearOrderedField K]
    (d : K) (v : VehicleT K) (load : K) : K :=
  durationHours (d * (11/10)) (v.average_speed / loadFactor v load * (9/10))

/-- The `duration_hours` computed for the greenest variant
(`(distance * 1.05) / (adjusted_speed * 0.8)`, lines 130, 145, 153). -/
def greenestDurationHours {K : Type*} [LinearOrderedField K]
    (d : K) (v : VehicleT K) (load : K) : K :=
  durationHours (d * (105/100)) (v.average_speed / loadFactor v load * (8/10))

theorem durationHours_load_mono {K : Type*} [LinearOrderedField K]
    {dd s m a b : K} (hdd : 0 ≤ dd) (hs : 0 < s) (hm : 0 < m)
    (ha : 0 < a) (hab : a ≤ b) :
    durationHours dd (s / a * m) ≤ durationHours dd (s / b * m) := by
  have hb : 0 < b := lt_of_lt_of_le ha hab
  have hsb : 0 < s / b * m := mul_pos (div_pos hs hb) hm
  have hle : s / b * m ≤ s / a * m :=
    mul_le_mul_of_nonneg_right (div_le_div_of_nonneg_left hs.le ha hab) hm.le
  exact div_le_div_of_nonneg_left hdd hsb hle

/-- C1, counterexample: fixed origin `plant-a`, destination `plant-b`,
vehicle `truck-small` (`min_capacity = 3 < 5 = max_capacity`) and direct
distance 100 km.  Raising `requested_load` from 3 to 5 (the maximum
capacity) raises the load factor from 1 to 1.5 and *decreases* the fastest
variant's CO2 figure from 35.0 to 23.3, because
`co2 = distance * co2_factor / load_factor` divides by the load factor. -/
theorem co2_decreases_with_load_cex :
    (computeRoutesFromDistance (K := ℚ) 100 "plant-a" "plant-b" []
        (truckSmall ℚ) 3).fastest.co2 = 35 ∧
      (computeRoutesFromDistance (K := ℚ) 100 "plant-a" "plant-b" []
        (truckSmall ℚ) 5).fastest.co2 = 233/10 ∧
      ¬ ((35:ℚ) ≤ 233/10) := by
  refine ⟨?_, ?_, by norm_num⟩ <;>
    norm_num [computeRoutesFromDistance, createRouteOption, loadFactor,
      truckSmall, min_def, pyRound1, pyRound]

/-- C1, amended: fix origin, destination, vehicle and direct distance, with
`min_capacity < max_capacity`, positive cruising speed, nonnegative fuel
consumption, CO2 factor and distance, and a requested load at least
`min_capacity`.  Increasing the requested load does not decrease the
computed `duration_hours` or the (rounded) fuel cost of any of the three
variants, and does not *increase* their CO2 figure — the CO2 output is
non-increasing in the load, not non-decreasing, because the code divides
the emission figure by the load factor. -/
theorem routeValues_load_monotone {K : Type*} [LinearOrderedField K] [FloorRing K]
    (d load load' : K) (v : VehicleT K) (origin destination : String)
    (locations : List (LocationT K))
    (hcap : v.min_capacity < v.max_capacity) (hspeed : 0 < v.average_speed)
    (hfc : 0 ≤ v.fuel_consumption) (hco2 : 0 ≤ v.co2_factor) (hd : 0 ≤ d)
    (hload : v.min_capacity ≤ load) (hll : load ≤ load') :
    (fastestDurationHours d v load ≤ fastestDurationHours d v load' ∧
      cheapestDurationHours d v load ≤ cheapestDurationHours d v load' ∧
      greenestDurationHours d v load ≤ greenestDurationHours d v load') ∧
    ((computeRoutesFromDistance d origin destination locations v load).fastest.fuel_cost ≤
        (computeRoutesFromDistance d origin destination locations v load').fastest.fuel_cost ∧
      (computeRoutesFromDistance d origin destination locations v load).cheapest.fuel_cost ≤
        (computeRoutesFromDistance d origin destination locations v load').cheapest.fuel_cost ∧
      (computeRoutesFromDistance d origin destination locations v load).greenest.fuel_cost ≤
        (computeRoutesFromDistance d origin destination locations v load').greenest.fuel_cost) ∧
    ((computeRoutesFromDistance d origin destination locations v load').fastest.co2 ≤
        (computeRoutesFromDistance d origin destination locations v load).fastest.co2 ∧
      (computeRoutesFromDistance d origin destination locations v load').cheapest.co2 ≤
        (computeRoutesFromDistance d origin destination locations v load).cheapest.co2 ∧
      (computeRoutesFromDistance d origin destination locations v load').greenest.co2 ≤
        (computeRoutesFromDistance d origin destination locations v load).greenest.co2) := by
  have hlf : loadFactor v load ≤ loadFactor v load' := loadFactor_mono hcap hll
  have hlf0 : 0 < loadFactor v load := loadFactor_pos hcap hload
  have hlf0' : 0 < loadFactor v load' :=
    loadFactor_pos hcap (le_trans hload hll)
  refine ⟨⟨?_, ?_, ?_⟩, ⟨?_, ?_, ?_⟩, ?_, ?_, ?_⟩
  · -- fastest duration
    have h := durationHours_load_mono (m := (1:K)) hd hspeed one_pos hlf0 hlf
    simpa [fastestDurationHours] using h
  · -- cheapest duration
    exact durationHours_load_mono (by linarith) hspeed (by norm_num) hlf0 hlf
  · -- greenest duration
    exact durationHours_load_mono (by linarith) hspeed (by norm_num) hlf0 hlf
  · -- fastest fuel cost
    simp only [computeRoutesFromDistance, createRouteOption]
    have harg : d * 15000 * (v.fuel_consumption * loadFactor v load) ≤
        d * 15000 * (v.fuel_consumption * loadFactor v load') := by
      nlinarith [mul_nonneg (mul_nonneg hd hfc) (sub_nonneg.2 hlf)]
    exact_mod_cast pyRound_mono harg
  · -- cheapest fuel cost
    simp only [computeRoutesFromDistance, createRouteOption]
    have harg : d * (11/10) * 15000 * (v.fuel_consumption * loadFactor v load * (95/100)) ≤
        d * (11/10) * 15000 * (v.fuel_consumption * loadFactor v load' * (95/100)) := by
      nlinarith [mul_nonneg (mul_nonneg hd hfc) (sub_nonneg.2 hlf)]
    exact_mod_cast pyRound_mono harg
  · -- greenest fuel cost
    simp only [computeRoutesFromDistance, createRouteOption]
    have harg : d * (105/100) * 15000 * (v.fuel_consumption * loadFactor v load * (9/10)) ≤
        d * (105/100) * 15000 * (v.fuel_consumption * loadFactor v load' * (9/10)) := by
      nlinarith [mul_nonneg (mul_nonneg hd hfc) (sub_nonneg.2 hlf)]
    exact_mod_cast pyRound_mono harg
  · -- fastest CO2
    simp only [computeRoutesFromDistance, createRouteOption]
    exact pyRound1_mono
      (div_le_div_of_nonneg_left (mul_nonneg hd hco2) hlf0 hlf)
  · -- cheapest CO2
    simp only [computeRoutesFromDistance, createRouteOption]
    exact pyRound1_mono
      (div_le_div_of_nonneg_left (mul_nonneg (by linarith) hco2) hlf0 hlf)
  · -- greenest CO2
    simp only [computeRoutesFromDistance, createRouteOption]
    exact pyRound1_mono
      (div_le_div_of_nonneg_left (mul_nonneg (by linarith) (by linarith)) hlf0 hlf)

/-- Witness for `routeValues_load_monotone`: small truck, distance 100,
loads 3 and 4. -/
theorem routeValues_load_monotone_witness :
    ((truckSmall ℚ).min_capacity < (truckSmall ℚ).max_capacity ∧
        (0:ℚ) < (truckSmall ℚ).average_speed) ∧
      fastestDurationHours (K := ℚ) 100 (truckSmall ℚ) 3 ≤
        fastestDurationHours (K := ℚ) 100 (truckSmall ℚ) 4 :=
  ⟨⟨by norm_num [truckSmall], by norm_num [truckSmall]⟩,
    ((routeValues_load_monotone (K := ℚ) 100 3 4 (truckSmall ℚ) "plant-a" "plant-b" []
      (by norm_num [truckSmall]) (by norm_num [truckSmall]) (by norm_num [truckSmall])
      (by norm_num [truckSmall]) (by norm_num) (by norm_num [truckSmall])
      (by norm_num)).1).1⟩

/-! ## Geo-distance calculator (`_haversine_distance`, lines 14-26) -/

/-- `math.radians`: degrees to radians. -/
noncomputable def radians (x : ℝ) : ℝ := x * Real.pi / 180

/-- The intermediate value `a` of the haversine formula (line 23). -/
noncomputable def haversineA (c1 c2 : ℝ × ℝ) : ℝ :=
  Real.sin ((radians c2.1 - radians c1.1) / 2) ^ 2 +
    Real.cos (radians c1.1) * Real.cos (radians c2.1) *
      Real.sin ((radians c2.2 - radians c1.2) / 2) ^ 2

/-- `_haversine_distance` (lines 14-26): `c = 2 * asin(sqrt(a))`,
returned as `c * 6371` kilometers. -/
noncomputable def haversine (c1 c2 : ℝ × ℝ) : ℝ :=
  2 * Real.arcsin (Real.sqrt (haversineA c1 c2)) * 6371

/-- `_haversine_distance` with the domain checks of `math.sqrt` (argument
must be nonnegative) and `math.asin` (argument must lie in `[-1, 1]`)
made explicit: this is where the Python implementation could raise a
`ValueError: math domain error`. -/
noncomputable def haversineChecked (c1 c2 : ℝ × ℝ) : Except String ℝ :=
  let a := haversineA c1 c2
  if a < 0 then .error "math domain error"
  else if 1 < |Real.sqrt a| then .error "math domain error"
  else .ok (2 * Real.arcsin (Real.sqrt a) * 6371)

theorem sin_sq_le_one (x : ℝ) : Real.sin x ^ 2 ≤ 1 := by
  have h := Real.sin_sq_add_cos_sq x
  nlinarith [sq_nonneg (Real.cos x)]

theorem haversineA_nonneg (c1 c2 : ℝ × ℝ) : 0 ≤ haversineA c1 c2 := by
  unfold haversineA
  set p1 := radians c1.1
  set p2 := radians c2.1
  set l1 := radians c1.2
  set l2 := radians c2.2
  have h1 := Real.sin_sq_eq_half_sub ((p2 - p1) / 2)
  rw [show 2 * ((p2 - p1) / 2) = p2 - p1 by ring] at h1
  have h2 : Real.cos p1 * Real.cos p2 =
      (Real.cos (p2 - p1) + Real.cos (p1 + p2)) / 2 := by
    rw [Real.cos_sub, Real.cos_add]; ring
  have hs0 : 0 ≤ Real.sin ((l2 - l1) / 2) ^ 2 := sq_nonneg _
  have hs1 : Real.sin ((l2 - l1) / 2) ^ 2 ≤ 1 := sin_sq_le_one _
  have hcd : Real.cos (p2 - p1) ≤ 1 := Real.cos_le_one _
  have hcs : -1 ≤ Real.cos (p1 + p2) := Real.neg_one_le_cos _
  rw [h1, h2]
  nlinarith [mul_nonneg (sub_nonneg.2 hs1) (sub_nonneg.2 hcd),
    mul_nonneg hs0 (by linarith : (0:ℝ) ≤ 1 + Real.cos (p1 + p2))]

theorem haversineA_le_one (c1 c2 : ℝ × ℝ) : haversineA c1 c2 ≤ 1 := by
  unfold haversineA
  set p1 := radians c1.1
  set p2 := radians c2.1
  set l1 := radians c1.2
  set l2 := radians c2.2
  have h1 := Real.sin_sq_eq_half_sub ((p2 - p1) / 2)
  rw [show 2 * ((p2 - p1) / 2) = p2 - p1 by ring] at h1
  have h2 : Real.cos p1 * Real.cos p2 =
      (Real.cos (p2 - p1) + Real.cos (p1 + p2)) / 2 := by
    rw [Real.cos_sub, Real.cos_add]; ring
  have hs0 : 0 ≤ Real.sin ((l2 - l1) / 2) ^ 2 := sq_nonneg _
  have hs1 : Real.sin ((l2 - l1) / 2) ^ 2 ≤ 1 := sin_sq_le_one _
  have hcd : -1 ≤ Real.cos (p2 - p1) := Real.neg_one_le_cos _
  have hcs : Real.cos (p1 + p2) ≤ 1 := Real.cos_le_one _
  rw [h1, h2]
  nlinarith [mul_nonneg (sub_nonneg.2 hs1) (by linarith : (0:ℝ) ≤ 1 + Real.cos (p2 - p1)),
    mul_nonneg hs0 (sub_nonneg.2 hcs)]

theorem sqrt_haversineA_le_one (c1 c2 : ℝ × ℝ) :
    Real.sqrt (haversineA c1 c2) ≤ 1 :=
  Real.sqrt_le_one.2 (haversineA_le_one c1 c2)

theorem haversine_nonneg (c1 c2 : ℝ × ℝ) : 0 ≤ haversine c1 c2 := by
  unfold haversine
  have h := Real.arcsin_nonneg.2 (Real.sqrt_nonneg (haversineA c1 c2))
  positivity

theorem haversineChecked_ok (c1 c2 : ℝ × ℝ) :
    haversineChecked c1 c2 = .ok (haversine c1 c2) := by
  unfold haversineChecked haversine
  rw [if_neg (not_lt.2 (haversineA_nonneg c1 c2)), if_neg]
  rw [abs_of_nonneg (Real.sqrt_nonneg _)]
  exact not_lt.2 (sqrt_haversineA_le_one c1 c2)

theorem haversineA_comm (c1 c2 : ℝ × ℝ) : haversineA c1 c2 = haversineA c2 c1 := by
  unfold haversineA
  rw [show (radians c1.1 - radians c2.1) / 2 = -((radians c2.1 - radians c1.1) / 2) by ring,
    show (radians c1.2 - radians c2.2) / 2 = -((radians c2.2 - radians c1.2) / 2) by ring,
    Real.sin_neg, Real.sin_neg]
  ring

theorem haversine_comm (c1 c2 : ℝ × ℝ) : haversine c1 c2 = haversine c2 c1 := by
  unfold haversine
  rw [haversineA_comm]

theorem haversineA_self (c : ℝ × ℝ) : haversineA c c = 0 := by
  unfold haversineA
  simp

theorem haversine_self (c : ℝ × ℝ) : haversine c c = 0 := by
  unfold haversine
  rw [haversineA_self, Real.sqrt_zero, Real.arcsin_zero]
  ring

/-- C8: the great-circle distance function is total — for every pair of
real coordinate pairs the `math.sqrt` and `math.asin` domain checks pass,
so no error is raised — it is symmetric, and it vanishes on equal
coordinates (exactly, in the real-number model of float arithmetic). -/
theorem haversine_total_symm_self :
    (∀ a b : ℝ × ℝ, haversineChecked a b = .ok (haversine a b)) ∧
      (∀ a b : ℝ × ℝ, haversine a b = haversine b a) ∧
      (∀ a : ℝ × ℝ, haversine a a = 0) :=
  ⟨haversineChecked_ok, haversine_comm, haversine_self⟩

/-- C9: on the live-compute path — where the direct distance is the
haversine distance between the origin and destination coordinates, hence
nonnegative — the fastest variant's toll cost (rate `500 * 1.2` per km on
the direct distance) is at least the cheapest variant's toll cost (rate
`500 * 0.7` per km on a 10%-longer distance), for every vehicle and load:
`600·d ≥ 385·d` and Python's `round` is monotone. -/
theorem fastest_toll_ge_cheapest_toll (c1 c2 : ℝ × ℝ) (origin destination : String)
    (locations : List (LocationT ℝ)) (v : VehicleT ℝ) (load : ℝ) :
    (computeRoutesFromDistance (haversine c1 c2) origin destination
        locations v load).cheapest.toll_cost ≤
      (computeRoutesFromDistance (haversine c1 c2) origin destination
        locations v load).fastest.toll_cost := by
  have hd : 0 ≤ haversine c1 c2 := haversine_nonneg c1 c2
  simp only [computeRoutesFromDistance, createRouteOption]
  have harg : haversine c1 c2 * (11/10) * (500 * (7/10)) ≤
      haversine c1 c2 * (500 * (12/10)) := by nlinarith
  exact_mod_cast pyRound_mono harg

/-! ## The haversine distance satisfies the triangle inequality

`_haversine_distance` computes `6371 * σ` where `σ` is the central angle
between the unit vectors determined by the two latitude/longitude pairs;
the triangle inequality for the angle is obtained from the Gram
determinant identity in `ℝ³`. -/

/-- Dot product on `ℝ³` (represented as nested pairs). -/
noncomputable def dot3 (u v : ℝ × ℝ × ℝ) : ℝ :=
  u.1 * v.1 + u.2.1 * v.2.1 + u.2.2 * v.2.2

/-- Unit direction vector of a (latitude, longitude) coordinate pair. -/
noncomputable def sphereVec (c : ℝ × ℝ) : ℝ × ℝ × ℝ :=
  (Real.cos (radians c.1) * Real.cos (radians c.2),
   Real.cos (radians c.1) * Real.sin (radians c.2),
   Real.sin (radians c.1))

theorem dot3_self_sphereVec (c : ℝ × ℝ) : dot3 (sphereVec c) (sphereVec c) = 1 := by
  unfold dot3 sphereVec
  dsimp only
  have h1 := Real.sin_sq_add_cos_sq (radians c.1)
  have h2 := Real.sin_sq_add_cos_sq (radians c.2)
  nlinarith [h1, h2]

theorem dot3_sphereVec (c1 c2 : ℝ × ℝ) :
    dot3 (sphereVec c1) (sphereVec c2) = 1 - 2 * haversineA c1 c2 := by
  unfold dot3 sphereVec haversineA
  have h1 := Real.sin_sq_eq_half_sub ((radians c2.1 - radians c1.1) / 2)
  rw [show 2 * ((radians c2.1 - radians c1.1) / 2) = radians c2.1 - radians c1.1 by ring] at h1
  have h2 := Real.sin_sq_eq_half_sub ((radians c2.2 - radians c1.2) / 2)
  rw [show 2 * ((radians c2.2 - radians c1.2) / 2) = radians c2.2 - radians c1.2 by ring] at h2
  rw [h1, h2, Real.cos_sub, Real.cos_sub]
  ring

theorem dot3_sq_le (u v : ℝ × ℝ × ℝ) : dot3 u v ^ 2 ≤ dot3 u u * dot3 v v := by
  unfold dot3
  nlinarith [sq_nonneg (u.1 * v.2.1 - u.2.1 * v.1), sq_nonneg (u.1 * v.2.2 - u.2.2 * v.1),
    sq_nonneg (u.2.1 * v.2.2 - u.2.2 * v.2.1)]

/-- Gram determinant identity: the determinant of the Gram matrix of three
vectors of `ℝ³` is the square of their scalar triple product. -/
theorem gram3 (u v w : ℝ × ℝ × ℝ) :
    dot3 u u * dot3 v v * dot3 w w + 2 * (dot3 u v * dot3 v w * dot3 u w) -
        dot3 u v ^ 2 * dot3 w w - dot3 v w ^ 2 * dot3 u u - dot3 u w ^ 2 * dot3 v v =
      (u.1 * (v.2.1 * w.2.2 - v.2.2 * w.2.1) - u.2.1 * (v.1 * w.2.2 - v.2.2 * w.1) +
        u.2.2 * (v.1 * w.2.1 - v.2.1 * w.1)) ^ 2 := by
  unfold dot3
  ring

theorem arccos_antitone {x y : ℝ} (h : x ≤ y) : Real.arccos y ≤ Real.arccos x := by
  rw [Real.arccos_eq_pi_div_two_sub_arcsin, Real.arccos_eq_pi_div_two_sub_arcsin]
  have := Real.monotone_arcsin h
  linarith

/-- Triangle inequality for the angle `arccos ∘ dot3` on unit vectors. -/
theorem arccos_dot3_triangle {u v w : ℝ × ℝ × ℝ}
    (hu : dot3 u u = 1) (hv : dot3 v v = 1) (hw : dot3 w w = 1) :
    Real.arccos (dot3 u w) ≤ Real.arccos (dot3 u v) + Real.arccos (dot3 v w) := by
  set a := dot3 u v with ha_def
  set b := dot3 v w with hb_def
  set c := dot3 u w with hc_def
  have ha2 : a ^ 2 ≤ 1 := by have := dot3_sq_le u v; rw [hu, hv] at this; simpa using this
  have hb2 : b ^ 2 ≤ 1 := by have := dot3_sq_le v w; rw [hv, hw] at this; simpa using this
  have hc2 : c ^ 2 ≤ 1 := by have := dot3_sq_le u w; rw [hu, hw] at this; simpa using this
  have ha1 : -1 ≤ a ∧ a ≤ 1 := ⟨by nlinarith, by nlinarith⟩
  have hb1 : -1 ≤ b ∧ b ≤ 1 := ⟨by nlinarith, by nlinarith⟩
  have hgram : (1 - a^2) * (1 - b^2) - (c - a*b)^2 ≥ 0 := by
    have h := gram3 u v w
    rw [hu, hv, hw] at h
    nlinarith [sq_nonneg (u.1 * (v.2.1 * w.2.2 - v.2.2 * w.2.1) -
      u.2.1 * (v.1 * w.2.2 - v.2.2 * w.1) + u.2.2 * (v.1 * w.2.1 - v.2.1 * w.1))]
  have habs : |c - a*b| ≤ Real.sqrt ((1 - a^2) * (1 - b^2)) := by
    rw [← Real.sqrt_sq_eq_abs]
    exact Real.sqrt_le_sqrt (by nlinarith)
  have hcos : Real.cos (Real.arccos a + Real.arccos b) ≤ c := by
    rw [Real.cos_add, Real.cos_arccos ha1.1 ha1.2, Real.cos_arccos hb1.1 hb1.2,
      Real.sin_arccos, Real.sin_arccos]
    have hsqved : Real.sqrt (1 - a^2) * Real.sqrt (1 - b^2) =
        Real.sqrt ((1 - a^2) * (1 - b^2)) := (Real.sqrt_mul (by nlinarith) _).symm
    rw [hsqved]
    have := abs_le.1 habs
    linarith [this.1]
  rcases le_or_lt Real.pi (Real.arccos a + Real.arccos b) with hpi | hpi
  · exact le_trans (Real.arccos_le_pi c) hpi
  · have h0 : 0 ≤ Real.arccos a + Real.arccos b :=
      add_nonneg (Real.arccos_nonneg a) (Real.arccos_nonneg b)
    calc Real.arccos c ≤ Real.arccos (Real.cos (Real.arccos a + Real.arccos b)) :=
          arccos_antitone hcos
      _ = Real.arccos a + Real.arccos b := Real.arccos_cos h0 hpi.le

/-- `2 * asin(sqrt a) = arccos(1 - 2a)` for `a ∈ [0, 1]`. -/
theorem two_arcsin_sqrt (a : ℝ) (h0 : 0 ≤ a) (h1 : a ≤ 1) :
    2 * Real.arcsin (Real.sqrt a) = Real.arccos (1 - 2*a) := by
  set t := Real.arcsin (Real.sqrt a) with ht_def
  have hs : Real.sin t = Real.sqrt a :=
    Real.sin_arcsin (le_trans (by norm_num) (Real.sqrt_nonneg a)) (Real.sqrt_le_one.2 h1)
  have hcos : Real.cos (2*t) = 1 - 2*a := by
    have hc2 := Real.cos_two_mul t
    have hsc := Real.sin_sq_add_cos_sq t
    have hsq : Real.sin t ^ 2 = a := by rw [hs]; exact Real.sq_sqrt h0
    nlinarith
  have h0t : 0 ≤ 2*t := by
    have := Real.arcsin_nonneg.2 (Real.sqrt_nonneg a)
    linarith
  have hpit : 2*t ≤ Real.pi := by
    have := Real.arcsin_le_pi_div_two (Real.sqrt a)
    linarith
  rw [← hcos, Real.arccos_cos h0t hpit]

/-- The haversine distance is `6371` times the central angle between the
two unit direction vectors. -/
theorem haversine_eq_arccos (c1 c2 : ℝ × ℝ) :
    haversine c1 c2 = Real.arccos (dot3 (sphereVec c1) (sphereVec c2)) * 6371 := by
  unfold haversine
  rw [two_arcsin_sqrt _ (haversineA_nonneg c1 c2) (haversineA_le_one c1 c2),
    dot3_sphereVec]

/-- Triangle inequality for `_haversine_distance`. -/
theorem haversine_triangle (p q r : ℝ × ℝ) :
    haversine p r ≤ haversine p q + haversine q r := by
  rw [haversine_eq_arccos, haversine_eq_arccos, haversine_eq_arccos]
  have h := arccos_dot3_triangle (dot3_self_sphereVec p) (dot3_self_sphereVec q)
    (dot3_self_sphereVec r)
  linarith

/-! ## Graph builder (`_build_graph`, lines 56-70)

The Python graph is `defaultdict(dict)`: an insertion-ordered mapping from
location code to an inner mapping from neighbor code to edge data.  It is
modelled as an association list with in-place update (`updateAssoc`),
which reproduces the dict assignment `graph[c1][c2] = {...}`. -/

/-- Edge payload (lines 65-69). -/
structure EdgeData (K : Type*) where
  distance : K
  coord1 : K × K
  coord2 : K × K

/-- Graph: code ↦ (neighbor code ↦ edge data). -/
abbrev Graph (K : Type*) := List (String × List (String × EdgeData K))

/-- Python dict assignment `d[k] = v`: replace in place or append. -/
def updateAssoc {α : Type*} : List (String × α) → String → α → List (String × α)
  | [], k, v => [(k, v)]
  | (k', v') :: t, k, v =>
    if k' = k then (k, v) :: t else (k', v') :: updateAssoc t k v

/-- Ordered-dict lookup. -/
def alookup {α : Type*} : List (String × α) → String → Option α
  | [], _ => none
  | (k', v) :: t, k => if k' = k then some v else alookup t k

/-- `graph.get(node, {})` (line 45). -/
def gLookup {K : Type*} (g : Graph K) (n : String) : List (String × EdgeData K) :=
  (alookup g n).getD []

/-- `graph[c1][c2] = e` on a `defaultdict(dict)`. -/
def setEdge {K : Type*} (g : Graph K) (c1 c2 : String) (e : EdgeData K) : Graph K :=
  updateAssoc g c1 (updateAssoc (gLookup g c1) c2 e)

/-- The edge inserted for an ordered pair of locations (lines 64-69). -/
noncomputable def mkEdge (l1 l2 : LocationT ℝ) : EdgeData ℝ :=
  ⟨haversine l1.coordinates l2.coordinates, l1.coordinates, l2.coordinates⟩

/-- Body of the inner loop of `_build_graph` (lines 62-69). -/
noncomputable def buildStep (l1 : LocationT ℝ) (g : Graph ℝ) (l2 : LocationT ℝ) :
    Graph ℝ :=
  if l1.code ≠ l2.code then setEdge g l1.code l2.code (mkEdge l1 l2) else g

/-- The inner loop of `_build_graph` for a fixed `loc1`. -/
noncomputable def addEdgesFrom (g : Graph ℝ) (l1 : LocationT ℝ)
    (locations : List (LocationT ℝ)) : Graph ℝ :=
  locations.foldl (buildStep l1) g

/-- `_build_graph` (lines 56-70): nested loops over all ordered pairs of
locations with distinct codes. -/
noncomputable def buildGraph (locations : List (LocationT ℝ)) : Graph ℝ :=
  locations.foldl (fun g l1 => addEdgesFrom g l1 locations) []

/-! ## Path search engine (`_dijkstra`, lines 28-54)

Queue entries are the Python tuples `(cost, node, path, dist)`; the heap
is modelled as a list from which `popMin` extracts the entry that is
minimal in the lexicographic tuple order used by `heapq`.  The loop
recurses on an explicit fuel which `fuelFor` makes large enough (proved in
`dijkstraLoop_isSome`): running out of fuel returns `none`, and
`dijkstra_isSome` shows this never happens. -/

/-- A heap entry `(cost, node, path, dist)` (line 30). -/
structure QEntry (K : Type*) where
  cost : K
  node : String
  path : List String
  dist : K

/-- String comparison used for heap tie-breaks. -/
def strLt (s t : String) : Bool := compare s t = Ordering.lt

/-- Lexicographic comparison of string lists (Python list comparison). -/
def strListLt : List String → List String → Bool
  | [], [] => false
  | [], _ :: _ => true
  | _ :: _, [] => false
  | a :: as, b :: bs =>
    if strLt a b then true else if strLt b a then false else strListLt as bs

/-- Python tuple comparison on `(cost, node, path, dist)`. -/
def entryLe {K : Type*} [LinearOrder K] (e1 e2 : QEntry K) : Bool :=
  if e1.cost < e2.cost then true
  else if e2.cost < e1.cost then false
  else if strLt e1.node e2.node then true
  else if strLt e2.node e1.node then false
  else if strListLt e1.path e2.path then true
  else if strListLt e2.path e1.path then false
  else decide (e1.dist ≤ e2.dist)

/-- `heapq.heappop`: extract a minimal entry. -/
def popMin {K : Type*} [LinearOrder K] :
    List (QEntry K) → Option (QEntry K × List (QEntry K))
  | [] => none
  | x :: xs =>
    match popMin xs with
    | none => some (x, [])
    | some (m, rest) => if entryLe x m then some (x, xs) else some (m, x :: rest)

/-- The neighbor loop (lines 45-52): push an entry and update `min_cost`
for every unvisited neighbor that improves on the recorded cost.  `path`
is the path including the current node (updated on line 40 before the
loop). -/
def relaxStep {K : Type*} [LinearOrderedField K] (weight : EdgeData K → K)
    (cost dist : K) (path : List String) (visited : List String)
    (acc : List (QEntry K) × List (String × K)) (p : String × EdgeData K) :
    List (QEntry K) × List (String × K) :=
  if p.1 ∈ visited then acc
  else
    let newCost := cost + weight p.2
    let newDist := dist + p.2.distance
    match alookup acc.2 p.1 with
    | some m =>
      if newCost < m then
        (acc.1 ++ [⟨newCost, p.1, path, newDist⟩], updateAssoc acc.2 p.1 newCost)
      else acc
    | none =>
      (acc.1 ++ [⟨newCost, p.1, path, newDist⟩], updateAssoc acc.2 p.1 newCost)

def relax {K : Type*} [LinearOrderedField K] (g : Graph K) (weight : EdgeData K → K)
    (node : String) (cost dist : K) (path : List String) (visited : List String)
    (minCost : List (String × K)) : List (QEntry K) × List (String × K) :=
  (gLookup g node).foldl (relaxStep weight cost dist path visited) ([], minCost)

/-- The `while queue:` loop of `_dijkstra` (lines 35-54).  Fuel exhaustion
returns `none`; an empty queue returns the no-path triple
`(inf, [], 0)` (line 54); popping `end` returns `(cost, path, dist)`
(lines 42-43). -/
def dijkstraLoop {K : Type*} [LinearOrderedField K] (g : Graph K) (endNode : String)
    (weight : EdgeData K → K) :
    Nat → List (QEntry K) → List String → List (String × K) →
      Option (WithTop K × List String × K)
  | 0, _, _, _ => none
  | fuel + 1, queue, visited, minCost =>
    match popMin queue with
    | none => some (⊤, [], 0)
    | some (e, rest) =>
      if e.node ∈ visited then dijkstraLoop g endNode weight fuel rest visited minCost
      else
        let visited' := e.node :: visited
        let path' := e.path ++ [e.node]
        if e.node = endNode then some ((e.cost : WithTop K), path', e.dist)
        else
          let pr := relax g weight e.node e.cost e.dist path' visited' minCost
          dijkstraLoop g endNode weight fuel (rest ++ pr.1) visited' pr.2

/-- All node names mentioned by the graph. -/
def graphNodes {K : Type*} (g : Graph K) : List String :=
  g.map Prod.fst ++ (g.map (fun p => p.2.map Prod.fst)).flatten

/-- The finite universe of nodes a run started at `start` can ever visit. -/
def univNodes {K : Type*} (g : Graph K) (start : String) : List String :=
  (start :: graphNodes g).dedup

/-- Total number of adjacency entries. -/
def edgeCount {K : Type*} (g : Graph K) : Nat :=
  (g.map (fun p => p.2.length)).sum

/-- A fuel value large enough for the loop to run to completion. -/
def fuelFor {K : Type*} (g : Graph K) (start : String) : Nat :=
  ((univNodes g start).length + 1) * (edgeCount g + 2) + 2

/-- `_dijkstra` (lines 28-54): initial queue `[(0, start, [], 0)]`,
`visited = {}`, `min_cost = {start: 0}`. -/
def dijkstra {K : Type*} [LinearOrderedField K] (g : Graph K) (start endNode : String)
    (weight : EdgeData K → K) : Option (WithTop K × List String × K) :=
  dijkstraLoop g endNode weight (fuelFor g start) [⟨0, start, [], 0⟩] [] [(start, 0)]

/-! ## Association list and heap facts -/

theorem alookup_updateAssoc_self {α : Type*} (l : List (String × α)) (k : String) (v : α) :
    alookup (updateAssoc l k v) k = some v := by
  induction l with
  | nil => simp [updateAssoc, alookup]
  | cons h t ih =>
    obtain ⟨k', v'⟩ := h
    by_cases hk : k' = k
    · subst hk
      simp [updateAssoc, alookup]
    · simp [updateAssoc, hk, alookup, ih]

theorem alookup_updateAssoc_ne {α : Type*} (l : List (String × α)) {k k' : String}
    (v : α) (h : k' ≠ k) : alookup (updateAssoc l k v) k' = alookup l k' := by
  induction l with
  | nil => simp [updateAssoc, alookup, Ne.symm h]
  | cons hd t ih =>
    obtain ⟨k'', v''⟩ := hd
    by_cases hk : k'' = k
    · subst hk
      simp [updateAssoc, alookup, Ne.symm h, ih]
    · by_cases hk2 : k'' = k'
      · subst hk2
        simp [updateAssoc, hk, alookup]
      · simp [updateAssoc, hk, alookup, hk2, ih]

theorem mem_updateAssoc {α : Type*} {l : List (String × α)} {k : String} {v : α}
    {x : String × α} (hx : x ∈ updateAssoc l k v) : x = (k, v) ∨ x ∈ l := by
  induction l with
  | nil => simpa [updateAssoc] using hx
  | cons h t ih =>
    by_cases hk : h.1 = k
    · rw [show h = (h.1, h.2) from rfl, updateAssoc, if_pos hk] at hx
      rcases List.mem_cons.1 hx with h1 | h1
      · exact Or.inl h1
      · exact Or.inr (List.mem_cons_of_mem _ h1)
    · rw [show h = (h.1, h.2) from rfl, updateAssoc, if_neg hk] at hx
      rcases List.mem_cons.1 hx with h1 | h1
      · exact Or.inr (by rw [h1]; exact List.mem_cons_self _ _)
      · rcases ih h1 with h2 | h2
        · exact Or.inl h2
        · exact Or.inr (List.mem_cons_of_mem _ h2)

theorem alookup_mem {α : Type*} {l : List (String × α)} {k : String} {v : α}
    (h : alookup l k = some v) : (k, v) ∈ l := by
  induction l with
  | nil => simp [alookup] at h
  | cons hd t ih =>
    obtain ⟨k', v'⟩ := hd
    by_cases hk : k' = k
    · subst hk
      simp only [alookup, if_pos rfl] at h
      injection h with h
      subst h
      exact List.mem_cons_self _ _
    · simp only [alookup, if_neg hk] at h
      exact List.mem_cons_of_mem _ (ih h)

theorem popMin_eq_none {K : Type*} [LinearOrder K] {l : List (QEntry K)} :
    popMin l = none ↔ l = [] := by
  cases l with
  | nil => simp [popMin]
  | cons x xs =>
    simp only [popMin]
    cases popMin xs with
    | none => simp
    | some p =>
      obtain ⟨m, rest⟩ := p
      by_cases h : entryLe x m = true <;> simp [h]

theorem popMin_perm {K : Type*} [LinearOrder K] :
    ∀ {l : List (QEntry K)} {m : QEntry K} {rest : List (QEntry K)},
      popMin l = some (m, rest) → l.Perm (m :: rest)
  | [], m, rest, h => by simp [popMin] at h
  | x :: xs, m, rest, h => by
    simp only [popMin] at h
    rcases hp : popMin xs with _ | ⟨m', rest'⟩
    · rw [hp] at h
      rw [popMin_eq_none.1 hp]
      injection h with h
      injection h with h1 h2
      subst h1; subst h2
      exact List.Perm.refl _
    · rw [hp] at h
      dsimp only at h
      by_cases hle : entryLe x m' = true
      · rw [if_pos hle] at h
        injection h with h
        injection h with h1 h2
        subst h1; subst h2
        exact List.Perm.refl _
      · rw [if_neg hle] at h
        injection h with h
        injection h with h1 h2
        subst h1; subst h2
        exact ((popMin_perm hp).cons x).trans (List.Perm.swap _ _ _)

/-! ## Facts about `relax` -/

theorem relaxStep_cases {K : Type*} [LinearOrderedField K] (weight : EdgeData K → K)
    (cost dist : K) (path : List String) (visited : List String)
    (acc : List (QEntry K) × List (String × K)) (p : String × EdgeData K) :
    relaxStep weight cost dist path visited acc p = acc ∨
      (p.1 ∉ visited ∧
        relaxStep weight cost dist path visited acc p =
          (acc.1 ++ [⟨cost + weight p.2, p.1, path, dist + p.2.distance⟩],
            updateAssoc acc.2 p.1 (cost + weight p.2))) := by
  unfold relaxStep
  by_cases hv : p.1 ∈ visited
  · rw [if_pos hv]
    exact Or.inl rfl
  · rw [if_neg hv]
    dsimp only
    cases halk : alookup acc.2 p.1 with
    | none => exact Or.inr ⟨hv, rfl⟩
    | some m =>
      dsimp only
      by_cases hc : cost + weight p.2 < m
      · rw [if_pos hc]
        exact Or.inr ⟨hv, rfl⟩
      · rw [if_neg hc]
        exact Or.inl rfl

theorem relaxStep_push_of_none {K : Type*} [LinearOrderedField K] (weight : EdgeData K → K)
    (cost dist : K) (path : List String) (visited : List String)
    (acc : List (QEntry K) × List (String × K)) (p : String × EdgeData K)
    (hnv : p.1 ∉ visited) (hnone : alookup acc.2 p.1 = none) :
    relaxStep weight cost dist path visited acc p =
      (acc.1 ++ [⟨cost + weight p.2, p.1, path, dist + p.2.distance⟩],
        updateAssoc acc.2 p.1 (cost + weight p.2)) := by
  unfold relaxStep
  rw [if_neg hnv]
  dsimp only
  rw [hnone]

theorem foldl_relaxStep_entries {K : Type*} [LinearOrderedField K] (weight : EdgeData K → K)
    (cost dist : K) (path : List String) (visited : List String)
    (S : List (String × EdgeData K)) :
    ∀ (l : List (String × EdgeData K)) (acc : List (QEntry K) × List (String × K)),
      (∀ p ∈ l, p ∈ S) →
      (∀ en ∈ acc.1, ∃ p, p ∈ S ∧ p.1 ∉ visited ∧
        en = ⟨cost + weight p.2, p.1, path, dist + p.2.distance⟩) →
      ∀ en ∈ (l.foldl (relaxStep weight cost dist path visited) acc).1,
        ∃ p, p ∈ S ∧ p.1 ∉ visited ∧
          en = ⟨cost + weight p.2, p.1, path, dist + p.2.distance⟩ := by
  intro l
  induction l with
  | nil => exact fun acc _ hacc en hen => hacc en hen
  | cons p t ih =>
    intro acc hl hacc en hen
    refine ih _ (fun q hq => hl q (List.mem_cons_of_mem _ hq)) ?_ en hen
    rcases relaxStep_cases weight cost dist path visited acc p with hcase | ⟨hnv, hcase⟩
    · rw [hcase]
      exact hacc
    · rw [hcase]
      intro en' hen'
      rcases List.mem_append.1 hen' with h | h
      · exact hacc en' h
      · have : en' = ⟨cost + weight p.2, p.1, path, dist + p.2.distance⟩ := by
          simpa using h
        exact ⟨p, hl p (List.mem_cons_self _ _), hnv, this⟩

theorem foldl_relaxStep_length {K : Type*} [LinearOrderedField K] (weight : EdgeData K → K)
    (cost dist : K) (path : List String) (visited : List String) :
    ∀ (l : List (String × EdgeData K)) (acc : List (QEntry K) × List (String × K)),
      (l.foldl (relaxStep weight cost dist path visited) acc).1.length ≤
        acc.1.length + l.length := by
  intro l
  induction l with
  | nil => intro acc; simp
  | cons p t ih =>
    intro acc
    rw [List.foldl_cons]
    have h := ih (relaxStep weight cost dist path visited acc p)
    rcases relaxStep_cases weight cost dist path visited acc p with hcase | ⟨_, hcase⟩ <;>
      rw [hcase] at h <;> simp only [List.length_cons, List.length_append,
        List.length_nil] at h ⊢ <;> rw [hcase] <;> omega

theorem foldl_relaxStep_mem_mono {K : Type*} [LinearOrderedField K] (weight : EdgeData K → K)
    (cost dist : K) (path : List String) (visited : List String) :
    ∀ (l : List (String × EdgeData K)) (acc : List (QEntry K) × List (String × K))
      (en : QEntry K), en ∈ acc.1 →
      en ∈ (l.foldl (relaxStep weight cost dist path visited) acc).1 := by
  intro l
  induction l with
  | nil => exact fun acc en hen => hen
  | cons p t ih =>
    intro acc en hen
    refine ih _ en ?_
    rcases relaxStep_cases weight cost dist path visited acc p with hcase | ⟨_, hcase⟩ <;>
      rw [hcase]
    · exact hen
    · exact List.mem_append.2 (Or.inl hen)

theorem foldl_relaxStep_push {K : Type*} [LinearOrderedField K] (weight : EdgeData K → K)
    (cost dist : K) (path : List String) (visited : List String) (nbr : String)
    (hnbr : nbr ∉ visited) :
    ∀ (l : List (String × EdgeData K)) (acc : List (QEntry K) × List (String × K)),
      (∃ pr ∈ l, pr.1 = nbr) →
      (alookup acc.2 nbr = none ∨ ∃ en ∈ acc.1, en.node = nbr) →
      ∃ en ∈ (l.foldl (relaxStep weight cost dist path visited) acc).1, en.node = nbr := by
  intro l
  induction l with
  | nil =>
    intro acc h1 _
    obtain ⟨pr, hpr, _⟩ := h1
    exact absurd hpr (List.not_mem_nil pr)
  | cons p t ih =>
    intro acc h1 h3
    rcases h3 with h3 | h3
    swap
    · -- an entry with the right node is already accumulated
      obtain ⟨en, hen, hnode⟩ := h3
      exact ⟨en, foldl_relaxStep_mem_mono weight cost dist path visited (p :: t) acc en hen,
        hnode⟩
    · by_cases hp : p.1 = nbr
      · -- this step pushes the entry
        have hpush := relaxStep_push_of_none weight cost dist path visited acc p
          (by rw [hp]; exact hnbr) (by rw [hp]; exact h3)
        have hmem : (⟨cost + weight p.2, p.1, path, dist + p.2.distance⟩ : QEntry K) ∈
            (relaxStep weight cost dist path visited acc p).1 := by
          rw [hpush]
          simp
        exact ⟨_, foldl_relaxStep_mem_mono weight cost dist path visited t _ _ hmem, hp⟩
      · -- key differs: the pending pair is in the tail and `none` is preserved
        obtain ⟨pr, hpr, hprn⟩ := h1
        have hprt : pr ∈ t := by
          rcases List.mem_cons.1 hpr with h | h
          · exact absurd (h ▸ hprn) hp
          · exact h
        refine ih _ ⟨pr, hprt, hprn⟩ ?_
        rcases relaxStep_cases weight cost dist path visited acc p with hcase | ⟨_, hcase⟩ <;>
          rw [hcase]
        · exact Or.inl h3
        · left
          rw [alookup_updateAssoc_ne _ _ (fun hc => hp hc.symm)]
          exact h3

theorem relax_entries {K : Type*} [LinearOrderedField K] (g : Graph K)
    (weight : EdgeData K → K) (node : String) (cost dist : K) (path : List String)
    (visited : List String) (minCost : List (String × K)) :
    ∀ en ∈ (relax g weight node cost dist path visited minCost).1,
      ∃ p, p ∈ gLookup g node ∧ p.1 ∉ visited ∧
        en = ⟨cost + weight p.2, p.1, path, dist + p.2.distance⟩ :=
  foldl_relaxStep_entries weight cost dist path visited (gLookup g node)
    (gLookup g node) ([], minCost) (fun _ hp => hp) (fun _ hen => absurd hen (by simp))

theorem relax_length {K : Type*} [LinearOrderedField K] (g : Graph K)
    (weight : EdgeData K → K) (node : String) (cost dist : K) (path : List String)
    (visited : List String) (minCost : List (String × K)) :
    (relax g weight node cost dist path visited minCost).1.length ≤
      (gLookup g node).length := by
  have h := foldl_relaxStep_length weight cost dist path visited (gLookup g node)
    ([], minCost)
  simpa [relax] using h

/-! ## Universe of reachable nodes -/

theorem mem_graphNodes_of_gLookup {K : Type*} {g : Graph K} {n : String}
    {p : String × EdgeData K} (hp : p ∈ gLookup g n) : p.1 ∈ graphNodes g := by
  unfold gLookup at hp
  cases hal : alookup g n with
  | none => rw [hal] at hp; simp at hp
  | some adj =>
    rw [hal] at hp
    simp only [Option.getD] at hp
    have hmem : (n, adj) ∈ g := alookup_mem hal
    unfold graphNodes
    refine List.mem_append.2 (Or.inr ?_)
    rw [List.mem_flatten]
    exact ⟨adj.map Prod.fst, List.mem_map_of_mem _ hmem, List.mem_map_of_mem _ hp⟩

theorem gLookup_length_le_edgeCount {K : Type*} (g : Graph K) (n : String) :
    (gLookup g n).length ≤ edgeCount g := by
  unfold gLookup
  cases hal : alookup g n with
  | none => simp
  | some adj =>
    simp only [Option.getD]
    have hmem : (n, adj) ∈ g := alookup_mem hal
    exact List.single_le_sum (fun _ _ => Nat.zero_le _) _
      (List.mem_map_of_mem (fun q => q.2.length) hmem)

theorem mem_univNodes {K : Type*} {g : Graph K} {s x : String} :
    x ∈ univNodes g s ↔ x = s ∨ x ∈ graphNodes g := by
  unfold univNodes
  rw [List.mem_dedup, List.mem_cons]

/-- Number of not-yet-visited universe nodes. -/
def remaining (U visited : List String) : Nat :=
  (U.filter (fun x => decide (x ∉ visited))).length

theorem remaining_cons {U : List String} (hU : U.Nodup) {a : String} (ha : a ∈ U)
    {visited : List String} (hav : a ∉ visited) :
    remaining U (a :: visited) + 1 = remaining U visited := by
  unfold remaining
  induction U with
  | nil => simp at ha
  | cons u t ih =>
    rcases List.nodup_cons.1 hU with ⟨hut, ht⟩
    simp only [List.filter_cons]
    rcases List.mem_cons.1 ha with h | h
    · have hu_eq : u = a := h.symm
      have h1 : (decide (u ∉ a :: visited)) = false := by simp [hu_eq]
      have h2 : (decide (u ∉ visited)) = true := by
        rw [hu_eq]; simpa using hav
      rw [h1, h2]
      have heq : t.filter (fun x => decide (x ∉ a :: visited)) =
          t.filter (fun x => decide (x ∉ visited)) := by
        apply List.filter_congr
        intro x hx
        have hxa : x ≠ a := by
          intro hc
          rw [← hu_eq] at hc
          exact hut (hc ▸ hx)
        simp [hxa]
      rw [heq]
      simp
    · by_cases hu : u ∈ visited
      · have h1 : (decide (u ∉ a :: visited)) = false := by simp [hu]
        have h2 : (decide (u ∉ visited)) = false := by simp [hu]
        rw [h1, h2]
        simpa using ih ht h
      · have hua : u ≠ a := fun hc => hut (hc ▸ h)
        have h1 : (decide (u ∉ a :: visited)) = true := by simp [hu, hua]
        have h2 : (decide (u ∉ visited)) = true := by simp [hu]
        rw [h1, h2]
        have h3 := ih ht h
        simp only [if_true, List.length_cons]
        omega

/-! ## Termination of the search loop -/

theorem dijkstraLoop_isSome {K : Type*} [LinearOrderedField K] (g : Graph K)
    (endNode : String) (weight : EdgeData K → K) (U : List String) (hU : U.Nodup)
    (hgU : ∀ x ∈ graphNodes g, x ∈ U) :
    ∀ (fuel : Nat) (queue : List (QEntry K)) (visited : List String)
      (minCost : List (String × K)),
      (∀ en ∈ queue, en.node ∈ U) →
      remaining U visited * (edgeCount g + 2) + queue.length + 1 ≤ fuel →
      (dijkstraLoop g endNode weight fuel queue visited minCost).isSome := by
  intro fuel
  induction fuel with
  | zero =>
    intro queue visited mc _ hf
    omega
  | succ fuel ih =>
    intro queue visited mc hq hf
    rw [dijkstraLoop]
    cases hpop : popMin queue with
    | none => simp
    | some pr =>
      obtain ⟨e, rest⟩ := pr
      have hperm := popMin_perm hpop
      have hlen : queue.length = rest.length + 1 := by
        have := hperm.length_eq
        simpa using this
      have hqrest : ∀ en ∈ rest, en.node ∈ U := fun en hen =>
        hq en (hperm.mem_iff.2 (List.mem_cons_of_mem _ hen))
      have heU : e.node ∈ U := hq e (hperm.mem_iff.2 (List.mem_cons_self _ _))
      dsimp only
      by_cases hv : e.node ∈ visited
      · rw [if_pos hv]
        exact ih rest visited mc hqrest (by omega)
      · rw [if_neg hv]
        by_cases hend : e.node = endNode
        · rw [if_pos hend]
          simp
        · rw [if_neg hend]
          have hlen2 : (relax g weight e.node e.cost e.dist (e.path ++ [e.node])
              (e.node :: visited) mc).1.length ≤ (gLookup g e.node).length :=
            relax_length g weight e.node e.cost e.dist _ _ mc
          have hE := le_trans hlen2 (gLookup_length_le_edgeCount g e.node)
          have hpush_nodes : ∀ en ∈ (relax g weight e.node e.cost e.dist
              (e.path ++ [e.node]) (e.node :: visited) mc).1, en.node ∈ U := by
            intro en hen
            obtain ⟨p, hp, _, hshape⟩ := relax_entries g weight e.node e.cost e.dist
              (e.path ++ [e.node]) (e.node :: visited) mc en hen
            rw [hshape]
            exact hgU p.1 (mem_graphNodes_of_gLookup hp)
          have hrem : remaining U (e.node :: visited) + 1 = remaining U visited :=
            remaining_cons hU heU hv
          apply ih
          · intro en hen
            rcases List.mem_append.1 hen with h | h
            · exact hqrest en h
            · exact hpush_nodes en h
          · rw [List.length_append]
            have hmul : remaining U visited * (edgeCount g + 2) =
                remaining U (e.node :: visited) * (edgeCount g + 2) + (edgeCount g + 2) := by
              rw [← hrem]
              ring
            rw [hmul] at hf
            omega

/-- Every result of the loop is either the no-path triple `(inf, [], 0)`
returned on queue exhaustion, or a success triple whose path ends at the
end node. -/
theorem dijkstraLoop_result_shape {K : Type*} [LinearOrderedField K] (g : Graph K)
    (endNode : String) (weight : EdgeData K → K) :
    ∀ (fuel : Nat) (queue : List (QEntry K)) (visited : List String)
      (minCost : List (String × K)) (r : WithTop K × List String × K),
      dijkstraLoop g endNode weight fuel queue visited minCost = some r →
      r = (⊤, [], 0) ∨ (r.2.1 ≠ [] ∧ r.2.1.getLast? = some endNode) := by
  intro fuel
  induction fuel with
  | zero => intro queue visited mc r h; simp [dijkstraLoop] at h
  | succ fuel ih =>
    intro queue visited mc r h
    rw [dijkstraLoop] at h
    cases hpop : popMin queue with
    | none =>
      rw [hpop] at h
      injection h with h
      exact Or.inl h.symm
    | some pr =>
      obtain ⟨e, rest⟩ := pr
      rw [hpop] at h
      dsimp only at h
      by_cases hv : e.node ∈ visited
      · rw [if_pos hv] at h
        exact ih rest visited mc r h
      · rw [if_neg hv] at h
        by_cases hend : e.node = endNode
        · rw [if_pos hend] at h
          injection h with h
          refine Or.inr ?_
          rw [← h]
          constructor
          · simp
          · simp [hend]
        · rw [if_neg hend] at h
          exact ih _ _ _ r h

/-- C6: for every graph, start and end node, and edge-cost function, the
Dijkstra search terminates with a result (never an error); the result is
either a success whose path ends at the end node (the `node == end` pop,
lines 42-43), or — when the queue is exhausted without popping the end
node — exactly the no-path triple of cost `+infinity`, empty path, and
zero distance (line 54). -/
theorem dijkstra_isSome {K : Type*} [LinearOrderedField K] (g : Graph K)
    (start endNode : String) (weight : EdgeData K → K) :
    (dijkstra g start endNode weight).isSome := by
  apply dijkstraLoop_isSome g endNode weight (univNodes g start)
    (List.nodup_dedup _) (fun x hx => mem_univNodes.2 (Or.inr hx))
  · intro en hen
    rcases List.mem_singleton.1 hen with rfl
    exact mem_univNodes.2 (Or.inl rfl)
  · unfold fuelFor
    have h1 : remaining (univNodes g start) [] ≤ (univNodes g start).length := by
      unfold remaining
      exact List.length_filter_le _ _
    have h2 : remaining (univNodes g start) [] * (edgeCount g + 2) ≤
        (univNodes g start).length * (edgeCount g + 2) :=
      Nat.mul_le_mul_right _ h1
    have h3 : ((univNodes g start).length + 1) * (edgeCount g + 2) =
        (univNodes g start).length * (edgeCount g + 2) + (edgeCount g + 2) := by
      ring
    simp only [List.length_singleton]
    omega

theorem dijkstra_noPath_or_endPath {K : Type*} [LinearOrderedField K] (g : Graph K)
    (start endNode : String) (weight : EdgeData K → K) :
    ∃ r, dijkstra g start endNode weight = some r ∧
      (r = (⊤, [], 0) ∨ (r.2.1 ≠ [] ∧ r.2.1.getLast? = some endNode)) := by
  obtain ⟨r, hr⟩ := Option.isSome_iff_exists.1 (dijkstra_isSome g start endNode weight)
  exact ⟨r, hr, dijkstraLoop_result_shape g endNode weight _ _ _ _ r hr⟩

/-! ## Path chains carried by queue entries -/

/-- `ChainD g a l d`: `l` is a sequence of hops leaving `a`, each hop an
edge recorded in `g`, with recorded distances summing to `d`. -/
inductive ChainD {K : Type*} [LinearOrderedField K] (g : Graph K) :
    String → List String → K → Prop
  | nil (a : String) : ChainD g a [] 0
  | cons (a b : String) (t : List String) (ed : EdgeData K) (d : K) :
      (b, ed) ∈ gLookup g a → ChainD g b t d → ChainD g a (b :: t) (ed.distance + d)

/-- Final node of the chain `a :: l`. -/
def chainLast : String → List String → String
  | a, [] => a
  | _, b :: t => chainLast b t

theorem chainLast_append_last : ∀ (t : List String) (a y : String),
    chainLast a (t ++ [y]) = y
  | [], _, _ => rfl
  | _ :: t, _, y => chainLast_append_last t _ y

theorem chainLast_of_append {p : List String} {n a : String} {r : List String}
    (h : p ++ [n] = a :: r) : chainLast a r = n := by
  cases p with
  | nil =>
    simp only [List.nil_append, List.cons.injEq] at h
    obtain ⟨h1, h2⟩ := h
    rw [← h2, h1]
    rfl
  | cons x t =>
    simp only [List.cons_append, List.cons.injEq] at h
    obtain ⟨h1, h2⟩ := h
    rw [← h2]
    exact chainLast_append_last t a n

theorem chainLast_getLast? : ∀ (r : List String) (a : String),
    (a :: r).getLast? = some (chainLast a r)
  | [], a => rfl
  | b :: t, a => by
    rw [List.getLast?_cons_cons]
    exact chainLast_getLast? t b

theorem ChainD.snoc {K : Type*} [LinearOrderedField K] {g : Graph K}
    {a : String} {l : List String} {d : K}
    (h : ChainD g a l d) :
    ∀ {b : String} {ed : EdgeData K}, (b, ed) ∈ gLookup g (chainLast a l) →
      ChainD g a (l ++ [b]) (d + ed.distance) := by
  induction h with
  | nil a =>
    intro b ed hmem
    have := ChainD.cons a b [] ed 0 hmem (ChainD.nil b)
    simpa [add_comm] using this
  | cons a c t ed' d' hmem' _ ih =>
    intro b ed hmem
    have hlast : chainLast a (c :: t) = chainLast c t := rfl
    rw [hlast] at hmem
    have := ChainD.cons a c (t ++ [b]) ed' (d' + ed.distance) hmem' (ih hmem)
    simpa [add_assoc] using this

/-- The invariant carried by every queue entry: its `path ++ [node]` is a
chain from `start` whose accumulated physical distance is `dist`. -/
def EntryInv {K : Type*} [LinearOrderedField K] (g : Graph K) (start : String)
    (en : QEntry K) : Prop :=
  ∃ rest, en.path ++ [en.node] = start :: rest ∧ ChainD g start rest en.dist

theorem dijkstraLoop_end_chain {K : Type*} [LinearOrderedField K] (g : Graph K)
    (endNode : String) (weight : EdgeData K → K) (start : String) :
    ∀ (fuel : Nat) (queue : List (QEntry K)) (visited : List String)
      (minCost : List (String × K)) (r : WithTop K × List String × K),
      (∀ en ∈ queue, EntryInv g start en) →
      dijkstraLoop g endNode weight fuel queue visited minCost = some r →
      r = (⊤, [], 0) ∨ ∃ rest, r.2.1 = start :: rest ∧ ChainD g start rest r.2.2 := by
  intro fuel
  induction fuel with
  | zero => intro queue visited mc r _ h; simp [dijkstraLoop] at h
  | succ fuel ih =>
    intro queue visited mc r hq h
    rw [dijkstraLoop] at h
    cases hpop : popMin queue with
    | none =>
      rw [hpop] at h
      injection h with h
      exact Or.inl h.symm
    | some pr =>
      obtain ⟨e, rest⟩ := pr
      rw [hpop] at h
      dsimp only at h
      have hperm := popMin_perm hpop
      have hqrest : ∀ en ∈ rest, EntryInv g start en := fun en hen =>
        hq en (hperm.mem_iff.2 (List.mem_cons_of_mem _ hen))
      have heInv : EntryInv g start e := hq e (hperm.mem_iff.2 (List.mem_cons_self _ _))
      by_cases hv : e.node ∈ visited
      · rw [if_pos hv] at h
        exact ih rest visited mc r hqrest h
      · rw [if_neg hv] at h
        by_cases hend : e.node = endNode
        · rw [if_pos hend] at h
          injection h with h
          obtain ⟨rest0, hsplit, hchain⟩ := heInv
          refine Or.inr ⟨rest0, ?_, ?_⟩
          · rw [← h]
            simpa using hsplit
          · rw [← h]
            simpa using hchain
        · rw [if_neg hend] at h
          refine ih _ _ _ r ?_ h
          intro en hen
          rcases List.mem_append.1 hen with hmem | hmem
          · exact hqrest en hmem
          · obtain ⟨p, hp, _, hshape⟩ := relax_entries g weight e.node e.cost e.dist
              (e.path ++ [e.node]) (e.node :: visited) mc en hmem
            obtain ⟨rest0, hsplit, hchain⟩ := heInv
            refine ⟨rest0 ++ [p.1], ?_, ?_⟩
            · rw [hshape]
              dsimp only
              rw [hsplit]
              simp
            · rw [hshape]
              dsimp only
              have hlast : chainLast start rest0 = e.node := chainLast_of_append hsplit
              exact ChainD.snoc hchain (by rw [hlast]; exact hp)

theorem dijkstraLoop_reaches {K : Type*} [LinearOrderedField K] (g : Graph K)
    (endNode : String) (weight : EdgeData K → K) :
    ∀ (fuel : Nat) (queue : List (QEntry K)) (visited : List String)
      (minCost : List (String × K)) (r : WithTop K × List String × K),
      endNode ∉ visited →
      (∃ en ∈ queue, en.node = endNode) →
      dijkstraLoop g endNode weight fuel queue visited minCost = some r →
      r.2.1 ≠ [] ∧ r.2.1.getLast? = some endNode := by
  intro fuel
  induction fuel with
  | zero => intro queue visited mc r _ _ h; simp [dijkstraLoop] at h
  | succ fuel ih =>
    intro queue visited mc r hnv hex h
    rw [dijkstraLoop] at h
    cases hpop : popMin queue with
    | none =>
      obtain ⟨en, hen, _⟩ := hex
      rw [popMin_eq_none.1 hpop] at hen
      exact absurd hen (List.not_mem_nil en)
    | some pr =>
      obtain ⟨e, rest⟩ := pr
      rw [hpop] at h
      dsimp only at h
      have hperm := popMin_perm hpop
      obtain ⟨en, hen, hennode⟩ := hex
      by_cases hv : e.node ∈ visited
      · rw [if_pos hv] at h
        have hne : en ≠ e := by
          intro hc
          rw [hc] at hennode
          rw [hennode] at hv
          exact hnv hv
        have henrest : en ∈ rest := by
          rcases List.mem_cons.1 (hperm.mem_iff.1 hen) with hcase | hcase
          · exact absurd hcase hne
          · exact hcase
        exact ih rest visited mc r hnv ⟨en, henrest, hennode⟩ h
      · rw [if_neg hv] at h
        by_cases hend : e.node = endNode
        · rw [if_pos hend] at h
          injection h with h
          rw [← h]
          constructor
          · simp
          · simp [hend]
        · rw [if_neg hend] at h
          have hne : en ≠ e := by
            intro hc
            rw [hc] at hennode
            exact hend hennode
          have henrest : en ∈ rest := by
            rcases List.mem_cons.1 (hperm.mem_iff.1 hen) with hcase | hcase
            · exact absurd hcase hne
            · exact hcase
          refine ih _ _ _ r ?_ ⟨en, List.mem_append.2 (Or.inl henrest), hennode⟩ h
          intro hc
          rcases List.mem_cons.1 hc with hcase | hcase
          · exact hend hcase.symm
          · exact hnv hcase

/-! ## The graph built by `_build_graph` is the complete graph on the
location codes -/

theorem foldl_invariant {α β : Type*} (P : β → Prop) (f : β → α → β) :
    ∀ (l : List α) (b : β), P b → (∀ b' a, a ∈ l → P b' → P (f b' a)) →
      P (l.foldl f b) := by
  intro l
  induction l with
  | nil => exact fun b hb _ => hb
  | cons x t ih =>
    intro b hb hstep
    exact ih (f b x) (hstep b x (List.mem_cons_self _ _) hb)
      (fun b' a ha => hstep b' a (List.mem_cons_of_mem _ ha))

theorem self_mem_updateAssoc {α : Type*} (l : List (String × α)) (k : String) (v : α) :
    (k, v) ∈ updateAssoc l k v := by
  induction l with
  | nil => simp [updateAssoc]
  | cons h t ih =>
    by_cases hk : h.1 = k
    · rw [show h = (h.1, h.2) from rfl, updateAssoc, if_pos hk]
      exact List.mem_cons_self _ _
    · rw [show h = (h.1, h.2) from rfl, updateAssoc, if_neg hk]
      exact List.mem_cons_of_mem _ ih

theorem mem_updateAssoc_of_ne {α : Type*} {l : List (String × α)} {x : String × α}
    (hx : x ∈ l) {k : String} (v : α) (hne : x.1 ≠ k) : x ∈ updateAssoc l k v := by
  induction l with
  | nil => simp at hx
  | cons h t ih =>
    by_cases hk : h.1 = k
    · rw [show h = (h.1, h.2) from rfl, updateAssoc, if_pos hk]
      rcases List.mem_cons.1 hx with h1 | h1
      · exact absurd (by rw [h1]; exact hk) hne
      · exact List.mem_cons_of_mem _ h1
    · rw [show h = (h.1, h.2) from rfl, updateAssoc, if_neg hk]
      rcases List.mem_cons.1 hx with h1 | h1
      · rw [h1]
        exact List.mem_cons_self _ _
      · exact List.mem_cons_of_mem _ (ih h1)

theorem gLookup_setEdge_self {K : Type*} (g : Graph K) (c1 c2 : String)
    (e : EdgeData K) :
    gLookup (setEdge g c1 c2 e) c1 = updateAssoc (gLookup g c1) c2 e := by
  unfold setEdge gLookup
  rw [alookup_updateAssoc_self]
  rfl

theorem gLookup_setEdge_ne {K : Type*} (g : Graph K) {a c1 : String} (c2 : String)
    (e : EdgeData K) (h : a ≠ c1) :
    gLookup (setEdge g c1 c2 e) a = gLookup g a := by
  unfold setEdge gLookup
  rw [alookup_updateAssoc_ne _ _ h]

/-- Soundness invariant: every edge of `g` was inserted for an ordered
pair of distinct-code locations of `locs`. -/
def GraphSound (locs : List (LocationT ℝ)) (g : Graph ℝ) : Prop :=
  ∀ (a b : String) (ed : EdgeData ℝ), (b, ed) ∈ gLookup g a →
    ∃ l1 l2, l1 ∈ locs ∧ l2 ∈ locs ∧ l1.code = a ∧ l2.code = b ∧
      l1.code ≠ l2.code ∧ ed = mkEdge l1 l2

theorem graphSound_empty (locs : List (LocationT ℝ)) : GraphSound locs [] := by
  intro a b ed hmem
  simp [gLookup, alookup] at hmem

theorem graphSound_setEdge {locs : List (LocationT ℝ)} {g : Graph ℝ}
    (hg : GraphSound locs g) {l1 l2 : LocationT ℝ} (h1 : l1 ∈ locs) (h2 : l2 ∈ locs)
    (hne : l1.code ≠ l2.code) :
    GraphSound locs (setEdge g l1.code l2.code (mkEdge l1 l2)) := by
  intro a b ed hmem
  by_cases ha : a = l1.code
  · subst ha
    rw [gLookup_setEdge_self] at hmem
    rcases mem_updateAssoc hmem with hcase | hcase
    · injection hcase with hb hed
      exact ⟨l1, l2, h1, h2, rfl, hb.symm, hne, hed⟩
    · exact hg _ _ _ hcase
  · rw [gLookup_setEdge_ne _ _ _ ha] at hmem
    exact hg _ _ _ hmem

theorem graphSound_buildStep {locs : List (LocationT ℝ)} {g : Graph ℝ}
    (hg : GraphSound locs g) {l1 l2 : LocationT ℝ} (h1 : l1 ∈ locs) (h2 : l2 ∈ locs) :
    GraphSound locs (buildStep l1 g l2) := by
  unfold buildStep
  split_ifs with hne
  · exact graphSound_setEdge hg h1 h2 hne
  · exact hg

theorem buildGraph_sound (locs : List (LocationT ℝ)) :
    GraphSound locs (buildGraph locs) := by
  unfold buildGraph
  refine foldl_invariant (GraphSound locs) _ locs [] (graphSound_empty locs) ?_
  intro g l1 h1 hg
  unfold addEdgesFrom
  refine foldl_invariant (GraphSound locs) _ locs g hg ?_
  intro g' l2 h2 hg'
  exact graphSound_buildStep hg' h1 h2

theorem exists_edge_setEdge {K : Type*} {g : Graph K} {a b : String}
    (h : ∃ ed, (b, ed) ∈ gLookup g a) (c1 c2 : String) (e : EdgeData K) :
    ∃ ed', (b, ed') ∈ gLookup (setEdge g c1 c2 e) a := by
  obtain ⟨ed, hed⟩ := h
  by_cases hac : a = c1
  · subst hac
    rw [gLookup_setEdge_self]
    by_cases hbc : b = c2
    · subst hbc
      exact ⟨e, self_mem_updateAssoc _ _ _⟩
    · exact ⟨ed, mem_updateAssoc_of_ne hed _ (by simpa using hbc)⟩
  · rw [gLookup_setEdge_ne _ _ _ hac]
    exact ⟨ed, hed⟩

theorem exists_edge_buildStep {g : Graph ℝ} {a b : String}
    (h : ∃ ed, (b, ed) ∈ gLookup g a) (l1 l2 : LocationT ℝ) :
    ∃ ed', (b, ed') ∈ gLookup (buildStep l1 g l2) a := by
  unfold buildStep
  split_ifs
  · exact exists_edge_setEdge h _ _ _
  · exact h

theorem exists_edge_addEdgesFrom {g : Graph ℝ} {a b : String}
    (h : ∃ ed, (b, ed) ∈ gLookup g a) (l1 : LocationT ℝ)
    (locs : List (LocationT ℝ)) :
    ∃ ed', (b, ed') ∈ gLookup (addEdgesFrom g l1 locs) a := by
  unfold addEdgesFrom
  exact foldl_invariant (fun g' => ∃ ed', (b, ed') ∈ gLookup g' a) _ locs g h
    (fun g' l2 _ hg' => exists_edge_buildStep hg' l1 l2)

theorem addEdgesFrom_establishes {l1 l2 : LocationT ℝ} (hne : l1.code ≠ l2.code) :
    ∀ (locs : List (LocationT ℝ)) (g : Graph ℝ), l2 ∈ locs →
      ∃ ed, (l2.code, ed) ∈ gLookup (addEdgesFrom g l1 locs) l1.code := by
  intro locs
  induction locs with
  | nil => intro g h2; simp at h2
  | cons x t ih =>
    intro g h2
    have hfold : addEdgesFrom g l1 (x :: t) = addEdgesFrom (buildStep l1 g x) l1 t := rfl
    rw [hfold]
    rcases List.mem_cons.1 h2 with hcase | hcase
    · subst hcase
      have hest : ∃ ed, (l2.code, ed) ∈ gLookup (buildStep l1 g l2) l1.code := by
        unfold buildStep
        rw [if_pos hne, gLookup_setEdge_self]
        exact ⟨mkEdge l1 l2, self_mem_updateAssoc _ _ _⟩
      exact exists_edge_addEdgesFrom hest l1 t
    · exact ih (buildStep l1 g x) hcase

theorem buildGraph_exists {locs : List (LocationT ℝ)} {l1 l2 : LocationT ℝ}
    (h1 : l1 ∈ locs) (h2 : l2 ∈ locs) (hne : l1.code ≠ l2.code) :
    ∃ ed, (l2.code, ed) ∈ gLookup (buildGraph locs) l1.code := by
  unfold buildGraph
  have haux : ∀ (outer : List (LocationT ℝ)) (g : Graph ℝ), l1 ∈ outer →
      ∃ ed, (l2.code, ed) ∈
        gLookup (outer.foldl (fun g l => addEdgesFrom g l locs) g) l1.code := by
    intro outer
    induction outer with
    | nil => intro g h; simp at h
    | cons x t ih =>
      intro g hmem
      rw [List.foldl_cons]
      rcases List.mem_cons.1 hmem with hcase | hcase
      · subst hcase
        have hest := addEdgesFrom_establishes hne locs g h2
        exact foldl_invariant
          (fun g' => ∃ ed, (l2.code, ed) ∈ gLookup g' l1.code) _ t _ hest
          (fun g' l _ hg' => exists_edge_addEdgesFrom hg' l locs)
      · exact ih (addEdgesFrom g x locs) hcase
  exact haux locs [] h1

/-! ## Coordinates of a code under a duplicate-free snapshot -/

/-- The coordinates of the location carrying a code (the `Location`
invariant makes codes unique, so the dict value is unambiguous). -/
def coordOf (locs : List (LocationT ℝ)) (c : String) : ℝ × ℝ :=
  match lookupLoc locs c with
  | some l => l.coordinates
  | none => (0, 0)

theorem lookupLoc_eq_none {K : Type*} {locs : List (LocationT K)} {c : String}
    (h : ∀ l ∈ locs, l.code ≠ c) : lookupLoc locs c = none := by
  induction locs with
  | nil => rfl
  | cons x t ih =>
    unfold lookupLoc
    rw [ih (fun l hl => h l (List.mem_cons_of_mem _ hl))]
    rw [if_neg (h x (List.mem_cons_self _ _))]

theorem lookupLoc_nodup {K : Type*} {locs : List (LocationT K)}
    (hnodup : (locs.map (fun l => l.code)).Nodup) {l : LocationT K} (hl : l ∈ locs) :
    lookupLoc locs l.code = some l := by
  induction locs with
  | nil => simp at hl
  | cons x t ih =>
    rw [List.map_cons, List.nodup_cons] at hnodup
    obtain ⟨hx, ht⟩ := hnodup
    rcases List.mem_cons.1 hl with hcase | hcase
    · subst hcase
      unfold lookupLoc
      rw [lookupLoc_eq_none (fun l' hl' hc =>
        hx (by rw [← hc]; exact List.mem_map_of_mem _ hl'))]
      rw [if_pos rfl]
    · unfold lookupLoc
      rw [ih ht hcase]

theorem coordOf_eq {locs : List (LocationT ℝ)}
    (hnodup : (locs.map (fun l => l.code)).Nodup) {l : LocationT ℝ} (hl : l ∈ locs) :
    coordOf locs l.code = l.coordinates := by
  unfold coordOf
  rw [lookupLoc_nodup hnodup hl]

/-- Along any chain of edges of the built graph, the accumulated distance
dominates the direct haversine distance between the chain's endpoints
(triangle inequality, hop by hop). -/
theorem chainD_dist_ge {locs : List (LocationT ℝ)}
    (hnodup : (locs.map (fun l => l.code)).Nodup) :
    ∀ {a : String} {l : List String} {d : ℝ},
      ChainD (buildGraph locs) a l d → (∃ la, la ∈ locs ∧ la.code = a) →
      haversine (coordOf locs a) (coordOf locs (chainLast a l)) ≤ d := by
  intro a l d hch
  induction hch with
  | nil a =>
    intro _
    rw [show chainLast a [] = a from rfl, haversine_self]
  | cons a b t ed d hmem hch ih =>
    intro _
    obtain ⟨l1, l2, h1, h2, hc1, hc2, _, hed⟩ := buildGraph_sound locs a b ed hmem
    have hca : coordOf locs a = l1.coordinates := by
      rw [← hc1]
      exact coordOf_eq hnodup h1
    have hcb : coordOf locs b = l2.coordinates := by
      rw [← hc2]
      exact coordOf_eq hnodup h2
    have hihb : haversine (coordOf locs b) (coordOf locs (chainLast b t)) ≤ d :=
      ih ⟨l2, h2, hc2⟩
    have hdist : ed.distance = haversine (coordOf locs a) (coordOf locs b) := by
      rw [hed, hca, hcb]
      rfl
    have htri := haversine_triangle (coordOf locs a) (coordOf locs b)
      (coordOf locs (chainLast b t))
    rw [show chainLast a (b :: t) = chainLast b t from rfl]
    linarith

/-- C7: for every snapshot of at least two locations with (per the data
model invariant) pairwise distinct codes, and every two of its locations
with distinct codes, running `_dijkstra` on the graph built by
`_build_graph` with the distance cost function succeeds and returns a path
that starts at the origin code, ends at the destination code, and whose
total accumulated distance is at least the direct haversine distance
between the two locations. -/
theorem dijkstra_completeGraph_path (locs : List (LocationT ℝ))
    (h2 : 2 ≤ locs.length) (hnodup : (locs.map (fun l => l.code)).Nodup)
    (lo ld : LocationT ℝ) (hlo : lo ∈ locs) (hld : ld ∈ locs)
    (hne : lo.code ≠ ld.code) :
    ∃ (c : WithTop ℝ) (p : List String) (dist : ℝ),
      dijkstra (buildGraph locs) lo.code ld.code (fun e => e.distance) =
        some (c, p, dist) ∧
      p.head? = some lo.code ∧ p.getLast? = some ld.code ∧
      haversine lo.coordinates ld.coordinates ≤ dist := by
  set g := buildGraph locs with hg_def
  set w : EdgeData ℝ → ℝ := fun e => e.distance with hw_def
  set s := lo.code
  set t := ld.code
  obtain ⟨r, hr⟩ := Option.isSome_iff_exists.1 (dijkstra_isSome g s t w)
  obtain ⟨c, p, d⟩ := r
  -- one-step unfolding of the loop: the start node is popped first
  have hF : fuelFor g s = (fuelFor g s - 1) + 1 := by
    unfold fuelFor
    omega
  have hstep : dijkstra g s t w = dijkstraLoop g t w (fuelFor g s - 1)
      ([] ++ (relax g w s 0 0 ([] ++ [s]) [s] [(s, 0)]).1) [s]
      (relax g w s 0 0 ([] ++ [s]) [s] [(s, 0)]).2 := by
    unfold dijkstra
    rw [hF, dijkstraLoop]
    have hpop : popMin [(⟨0, s, [], 0⟩ : QEntry ℝ)] = some (⟨0, s, [], 0⟩, []) := rfl
    rw [hpop]
    dsimp only
    rw [if_neg (List.not_mem_nil s), if_neg hne]
    simp only [Nat.add_sub_cancel]
  -- the direct edge from start pushes an entry for the end node
  have hpush : ∃ en ∈ (relax g w s 0 0 ([] ++ [s]) [s] [(s, 0)]).1, en.node = t := by
    apply foldl_relaxStep_push w 0 0 ([] ++ [s]) [s] t
      (by simpa using fun hc => hne hc.symm)
    · obtain ⟨ed, hed⟩ := buildGraph_exists hlo hld hne
      exact ⟨(t, ed), hed, rfl⟩
    · left
      simp [alookup, hne]
  -- hence the run returns through the `node == end` branch
  have hreach : p ≠ [] ∧ p.getLast? = some t := by
    have hr' := hr
    rw [hstep] at hr'
    have := dijkstraLoop_reaches g t w (fuelFor g s - 1) _ [s] _ (c, p, d)
      (by simpa using fun hc => hne hc.symm)
      (by
        obtain ⟨en, hen, hent⟩ := hpush
        exact ⟨en, List.mem_append.2 (Or.inr hen), hent⟩)
      hr'
    simpa using this
  -- the entry invariant gives the chain from the start node
  have hchain := dijkstraLoop_end_chain g t w s (fuelFor g s)
    [⟨0, s, [], 0⟩] [] [(s, 0)] (c, p, d)
    (by
      intro en hen
      rcases List.mem_singleton.1 hen with rfl
      exact ⟨[], by simp, ChainD.nil s⟩)
    hr
  rcases hchain with hcase | ⟨rest, hp, hch⟩
  · exfalso
    apply hreach.1
    have : p = ([] : List String) := congrArg (fun x => x.2.1) hcase
    exact this
  · refine ⟨c, p, d, hr, ?_, hreach.2, ?_⟩
    · rw [show p = (c, p, d).2.1 from rfl, hp]
      rfl
    · have hlast : chainLast s rest = t := by
        have h1 := chainLast_getLast? rest s
        have h2 := hreach.2
        rw [show p = (c, p, d).2.1 from rfl, hp] at h2
        rw [h1] at h2
        injection h2
      have hb := chainD_dist_ge hnodup
        (show ChainD g s rest (c, p, d).2.2 from hch) ⟨lo, hlo, rfl⟩
      rw [hlast] at hb
      have hcoA : coordOf locs s = lo.coordinates := coordOf_eq hnodup hlo
      have hcoB : coordOf locs t = ld.coordinates := coordOf_eq hnodup hld
      rw [hcoA, hcoB] at hb
      exact hb

/-- Witness for `dijkstra_completeGraph_path` on the mock snapshot,
from `plant-a` to `plant-b`. -/
theorem dijkstra_completeGraph_path_witness :
    (2 ≤ (mockLocations ℝ).length ∧
      ((mockLocations ℝ).map (fun l => l.code)).Nodup ∧
      plantA ℝ ∈ mockLocations ℝ ∧ plantB ℝ ∈ mockLocations ℝ ∧
      (plantA ℝ).code ≠ (plantB ℝ).code) ∧
    ∃ (c : WithTop ℝ) (p : List String) (dist : ℝ),
      dijkstra (buildGraph (mockLocations ℝ)) (plantA ℝ).code (plantB ℝ).code
        (fun e => e.distance) = some (c, p, dist) ∧
      p.head? = some (plantA ℝ).code ∧ p.getLast? = some (plantB ℝ).code ∧
      haversine (plantA ℝ).coordinates (plantB ℝ).coordinates ≤ dist :=
  ⟨⟨by simp [mockLocations], by simp [mockLocations, plantA, plantB, truckSmall],
    by simp [mockLocations], by simp [mockLocations], by simp [plantA, plantB]⟩,
   dijkstra_completeGraph_path (mockLocations ℝ) (by simp [mockLocations])
     (by simp [mockLocations, plantA, plantB]) (plantA ℝ) (plantB ℝ)
     (by simp [mockLocations]) (by simp [mockLocations])
     (by simp [plantA, plantB])⟩

/-! ## Orchestrator (`optimize_route`, lines 180-213) and the database
path (`_generate_from_database` / `_create_route_option_from_db`,
lines 215-280)

Python exceptions are modelled by `Except RouteError`:
`invalidOriginOrDestination` and `invalidVehicleType` are the two
`ValueError`s of the validation step, `keyError` a dict `KeyError`,
`zeroDivision` a `ZeroDivisionError`, and `validationError` the pydantic
error raised when `RouteOption(...)` is constructed without its required
`waypoints` field. -/

inductive RouteError where
  | invalidOriginOrDestination (origin destination : String)
  | invalidVehicleType (vehicle_type : String)
  | keyError (code : String)
  | zeroDivision
  | validationError (field : String)
deriving DecidableEq

/-- The codes appearing in the error message text. -/
def RouteError.named : RouteError → List String
  | .invalidOriginOrDestination o d => [o, d]
  | .invalidVehicleType v => [v]
  | .keyError c => [c]
  | _ => []

/-- `vehicle_dict = {v.code: v}` lookup, like `lookupLoc`. -/
def lookupVeh {K : Type*} : List (VehicleT K) → String → Option (VehicleT K)
  | [], _ => none
  | v :: rest, c =>
    match lookupVeh rest c with
    | some v' => some v'
    | none => if v.code = c then some v else none

/-- `_compute_optimized_routes` (lines 105-149) with every operation that
can raise made explicit, in source order: the two dict subscripts (lines
107-108), the division by `max_capacity - min_capacity` (line 113), the
division by `load_factor` (line 114), the division by `speed` in the
fastest variant's `_create_route_option` call (line 153), and finally the
`RouteOption` construction without the required `waypoints` field (lines
170-178), which raises before the cheapest variant is ever computed. -/
noncomputable def computeOptimizedRoutesChecked (locations : List (LocationT ℝ))
    (v : VehicleT ℝ) (req : RouteRequest ℝ) : Except RouteError (RouteResponse ℝ) :=
  match lookupLoc locations req.origin with
  | none => .error (.keyError req.origin)
  | some origin_loc =>
    match lookupLoc locations req.destination with
    | none => .error (.keyError req.destination)
    | some dest_loc =>
      let _direct_distance := haversine origin_loc.coordinates dest_loc.coordinates
      if v.max_capacity - v.min_capacity = 0 then .error .zeroDivision
      else
        let load_factor := loadFactor v req.load_capacity
        if load_factor = 0 then .error .zeroDivision
        else
          let adjusted_speed := v.average_speed / load_factor
          if adjusted_speed = 0 then .error .zeroDivision
          else .error (.validationError "waypoints")

/-- `optimize_route` (lines 180-213) on a snapshot, for a run in which the
database is unavailable (the `is_database_available()` branch of lines
197-211 is skipped and the live compute path is taken). -/
noncomputable def optimizeRoute (locations : List (LocationT ℝ))
    (vehicles : List (VehicleT ℝ)) (req : RouteRequest ℝ) :
    Except RouteError (RouteResponse ℝ) :=
  if (lookupLoc locations req.origin).isNone ||
      (lookupLoc locations req.destination).isNone then
    .error (.invalidOriginOrDestination req.origin req.destination)
  else
    match lookupVeh vehicles req.vehicle_type with
    | none => .error (.invalidVehicleType req.vehicle_type)
    | some vehicle => computeOptimizedRoutesChecked locations vehicle req

/-! ## Database path -/

/-- Waypoint assembly of `_create_route_option_from_db` (lines 242-246). -/
def waypointsOf {K : Type*} (path_codes : List String)
    (locations : List (LocationT K)) : List (K × K) :=
  path_codes.filterMap (fun c => (lookupLoc locations c).map (fun l => l.coordinates))

/-- `_create_route_option_from_db` (lines 241-280).  Note `int(...)`
truncation (not `round`) for fuel and toll cost, and that `waypoints` is
supplied here. -/
def createRouteOptionFromDb {K : Type*} [LinearOrderedField K] [FloorRing K]
    (option_type : String) (distance : K) (path_codes : List String)
    (locations : List (LocationT K)) (speed fuel_consumption fuel_price
    toll_cost_per_km co2_factor load_factor : K) : RouteOptionT K :=
  let waypoints := waypointsOf path_codes locations
  let duration_hours :=
    if option_type = "fastest" then distance / speed
    else if option_type = "cheapest" then distance / (speed * (8/10))
    else distance / (speed * (9/10))
  let fuel_cost := distance * fuel_price * fuel_consumption
  let toll_cost := distance * toll_cost_per_km
  let co2 := distance * co2_factor / load_factor
  let path_names := path_codes.filterMap
    (fun c => (lookupLoc locations c).map (fun l => l.name))
  { id := option_type
    distance := pyRound1 distance
    duration := formatDuration duration_hours
    fuel_cost := (pyInt fuel_cost : K)
    toll_cost := (pyInt toll_cost : K)
    co2 := pyRound1 co2
    path := String.intercalate " → " path_names
    waypoints := some waypoints }

/-- `_generate_from_database` (lines 215-239). -/
def generateFromDb {K : Type*} [LinearOrderedField K] [FloorRing K]
    (req : RouteRequest K) (rc : RouteConfigT K) (locations : List (LocationT K))
    (v : VehicleT K) : RouteResponse K :=
  let load_factor := loadFactor v req.load_capacity
  let adjusted_speed := v.average_speed / load_factor
  let adjusted_fuel_consumption := v.fuel_consumption * load_factor
  let fuel_price : K := 15000
  let toll_cost_per_km : K := 500
  { fastest := createRouteOptionFromDb "fastest" rc.fastest_distance rc.fastest_path
      locations adjusted_speed adjusted_fuel_consumption fuel_price toll_cost_per_km
      v.co2_factor load_factor
    cheapest := createRouteOptionFromDb "cheapest" rc.cheapest_distance rc.cheapest_path
      locations adjusted_speed adjusted_fuel_consumption fuel_price toll_cost_per_km
      v.co2_factor load_factor
    greenest := createRouteOptionFromDb "greenest" rc.greenest_distance rc.greenest_path
      locations adjusted_speed adjusted_fuel_consumption fuel_price toll_cost_per_km
      v.co2_factor load_factor }

/-! ## Division guards in isolation (for the safety analysis)

The two checked variants below guard exactly the divisions performed by
the live-compute valuation (lines 113, 114, 153, 160) and by the database
valuation (lines 217, 218, 250-254, 258); the pydantic waypoints failure
is deliberately not modelled here so that reachability of `.ok` speaks
only about the division-by-zero branches. -/

def computeRoutesDivChecked {K : Type*} [LinearOrderedField K] [FloorRing K]
    (d : K) (origin destination : String) (locations : List (LocationT K))
    (v : VehicleT K) (load : K) : Except RouteError (RouteResponse K) :=
  if v.max_capacity - v.min_capacity = 0 then .error .zeroDivision
  else
    let load_factor := loadFactor v load
    if load_factor = 0 then .error .zeroDivision
    else
      let adjusted_speed := v.average_speed / load_factor
      if adjusted_speed = 0 then .error .zeroDivision
      else if adjusted_speed * (9/10) = 0 then .error .zeroDivision
      else if adjusted_speed * (8/10) = 0 then .error .zeroDivision
      else .ok (computeRoutesFromDistance d origin destination locations v load)

def generateFromDbDivChecked {K : Type*} [LinearOrderedField K] [FloorRing K]
    (req : RouteRequest K) (rc : RouteConfigT K) (locations : List (LocationT K))
    (v : VehicleT K) : Except RouteError (RouteResponse K) :=
  if v.max_capacity - v.min_capacity = 0 then .error .zeroDivision
  else
    let load_factor := loadFactor v req.load_capacity
    if load_factor = 0 then .error .zeroDivision
    else
      let adjusted_speed := v.average_speed / load_factor
      if adjusted_speed = 0 then .error .zeroDivision
      else if adjusted_speed * (8/10) = 0 then .error .zeroDivision
      else if adjusted_speed * (9/10) = 0 then .error .zeroDivision
      else .ok (generateFromDb req rc locations v)

/-! ## Validation and error claims -/

theorem lookupLoc_eq_none_iff {K : Type*} {locs : List (LocationT K)} {c : String} :
    lookupLoc locs c = none ↔ c ∉ locs.map (fun l => l.code) := by
  induction locs with
  | nil => simp [lookupLoc]
  | cons x t ih =>
    rw [show lookupLoc (x :: t) c = (match lookupLoc t c with
      | some l' => some l'
      | none => if x.code = c then some x else none) from rfl]
    cases h : lookupLoc t c with
    | some l' =>
      dsimp only
      simp only [List.map_cons, List.mem_cons]
      constructor
      · intro hc
        exact absurd hc (by simp)
      · intro hc
        exfalso
        have hmem : c ∈ t.map (fun l => l.code) := by
          by_contra hcc
          have h2 := ih.2 hcc
          rw [h] at h2
          exact Option.noConfusion h2
        exact hc (Or.inr hmem)
    | none =>
      dsimp only
      have hmem : c ∉ t.map (fun l => l.code) := ih.1 h
      simp only [List.map_cons, List.mem_cons]
      by_cases hx : x.code = c
      · rw [if_pos hx]
        simp [hx]
      · rw [if_neg hx]
        constructor
        · intro _
          push_neg
          exact ⟨fun hc => hx hc.symm, hmem⟩
        · intro _
          rfl

theorem lookupVeh_eq_none_iff {K : Type*} {vehicles : List (VehicleT K)} {c : String} :
    lookupVeh vehicles c = none ↔ c ∉ vehicles.map (fun v => v.code) := by
  induction vehicles with
  | nil => simp [lookupVeh]
  | cons x t ih =>
    rw [show lookupVeh (x :: t) c = (match lookupVeh t c with
      | some v' => some v'
      | none => if x.code = c then some x else none) from rfl]
    cases h : lookupVeh t c with
    | some v' =>
      dsimp only
      simp only [List.map_cons, List.mem_cons]
      constructor
      · intro hc
        exact absurd hc (by simp)
      · intro hc
        exfalso
        have hmem : c ∈ t.map (fun v => v.code) := by
          by_contra hcc
          have h2 := ih.2 hcc
          rw [h] at h2
          exact Option.noConfusion h2
        exact hc (Or.inr hmem)
    | none =>
      dsimp only
      have hmem : c ∉ t.map (fun v => v.code) := ih.1 h
      simp only [List.map_cons, List.mem_cons]
      by_cases hx : x.code = c
      · rw [if_pos hx]
        simp [hx]
      · rw [if_neg hx]
        constructor
        · intro _
          push_neg
          exact ⟨fun hc => hx hc.symm, hmem⟩
        · intro _
          rfl

/-- C4: a request whose origin or destination code is missing from the
location snapshot is rejected with the `ValueError` of line 187, whose
message names both submitted codes (hence the offending one); a request
whose location codes are known but whose vehicle-type code is missing from
the vehicle snapshot is rejected with the `ValueError` of line 193 naming
that code.  In both cases `optimize_route` returns an error and no
(partial) `RouteOptimizationResponse`. -/
theorem optimizeRoute_invalid_reference (locations : List (LocationT ℝ))
    (vehicles : List (VehicleT ℝ)) (req : RouteRequest ℝ) :
    ((req.origin ∉ locations.map (fun l => l.code) ∨
        req.destination ∉ locations.map (fun l => l.code)) →
      optimizeRoute locations vehicles req =
          .error (.invalidOriginOrDestination req.origin req.destination) ∧
        req.origin ∈ (RouteError.invalidOriginOrDestination req.origin
          req.destination).named ∧
        req.destination ∈ (RouteError.invalidOriginOrDestination req.origin
          req.destination).named) ∧
    (req.origin ∈ locations.map (fun l => l.code) →
      req.destination ∈ locations.map (fun l => l.code) →
      req.vehicle_type ∉ vehicles.map (fun v => v.code) →
      optimizeRoute locations vehicles req =
          .error (.invalidVehicleType req.vehicle_type) ∧
        req.vehicle_type ∈ (RouteError.invalidVehicleType req.vehicle_type).named) := by
  constructor
  · intro hbad
    have hcond : ((lookupLoc locations req.origin).isNone ||
        (lookupLoc locations req.destination).isNone) = true := by
      rcases hbad with hbad | hbad
      · rw [Bool.or_eq_true, Option.isNone_iff_eq_none, Option.isNone_iff_eq_none]
        exact Or.inl (lookupLoc_eq_none_iff.2 hbad)
      · rw [Bool.or_eq_true, Option.isNone_iff_eq_none, Option.isNone_iff_eq_none]
        exact Or.inr (lookupLoc_eq_none_iff.2 hbad)
    refine ⟨?_, by simp [RouteError.named], by simp [RouteError.named]⟩
    unfold optimizeRoute
    rw [if_pos hcond]
  · intro ho hd hv
    have h1 : (lookupLoc locations req.origin).isNone = false := by
      cases hl : lookupLoc locations req.origin with
      | none => exact absurd ho (lookupLoc_eq_none_iff.1 hl)
      | some l => rfl
    have h2 : (lookupLoc locations req.destination).isNone = false := by
      cases hl : lookupLoc locations req.destination with
      | none => exact absurd hd (lookupLoc_eq_none_iff.1 hl)
      | some l => rfl
    refine ⟨?_, by simp [RouteError.named]⟩
    unfold optimizeRoute
    rw [h1, h2, lookupVeh_eq_none_iff.2 hv]
    rfl

/-- Witness for `optimizeRoute_invalid_reference` at an unknown origin
code against the mock snapshot. -/
theorem optimizeRoute_invalid_reference_witness :
    ("nowhere" ∉ (mockLocations ℝ).map (fun l => l.code)) ∧
      optimizeRoute (mockLocations ℝ) (mockVehicles ℝ)
          ⟨"nowhere", "plant-b", "truck-small", 4⟩ =
        .error (.invalidOriginOrDestination "nowhere" "plant-b") ∧
      "nowhere" ∈ (RouteError.invalidOriginOrDestination "nowhere" "plant-b").named :=
  ⟨by simp [mockLocations, plantA, plantB],
   ((optimizeRoute_invalid_reference (mockLocations ℝ) (mockVehicles ℝ)
      ⟨"nowhere", "plant-b", "truck-small", 4⟩).1
      (Or.inl (by simp [mockLocations, plantA, plantB]))).1,
   ((optimizeRoute_invalid_reference (mockLocations ℝ) (mockVehicles ℝ)
      ⟨"nowhere", "plant-b", "truck-small", 4⟩).1
      (Or.inl (by simp [mockLocations, plantA, plantB]))).2.1⟩

/-- C3, counterexample: `_build_graph` does not return an error for fewer
than 2 locations — it is a total function that returns the *empty* graph
on a one-location (or empty) input; there is no `DegenerateInput` (or any
other) failure in it. -/
theorem buildGraph_no_error_cex :
    buildGraph [plantA ℝ] = [] ∧ buildGraph ([] : List (LocationT ℝ)) = [] := by
  constructor
  · simp [buildGraph, addEdgesFrom, buildStep]
  · rfl

/-- C3, amended: graph building never fails — for fewer than 2 locations
it returns the empty graph — and a request against a one-location
snapshot does not fail with a `DegenerateInput` condition (none exists in
the code): with unknown codes it fails with the `InvalidReference`-style
`ValueError`, and with known codes it proceeds to route computation,
which fails with the pydantic `validationError` on the missing
`waypoints` field that affects every live-computed request. -/
theorem buildGraph_degenerate_behaviour :
    (∀ locs : List (LocationT ℝ), locs.length < 2 → buildGraph locs = []) ∧
      optimizeRoute [plantA ℝ] (mockVehicles ℝ) ⟨"plant-a", "plant-a", "truck-small", 3⟩ =
        .error (.validationError "waypoints") := by
  constructor
  · intro locs hlen
    match locs with
    | [] => rfl
    | [l] => simp [buildGraph, addEdgesFrom, buildStep]
    | a :: b :: t => exact absurd hlen (by simp)
  · unfold optimizeRoute
    rw [if_neg (by simp [lookupLoc, plantA])]
    rw [show lookupVeh (mockVehicles ℝ) "truck-small" = some (truckSmall ℝ) by
      simp [lookupVeh, mockVehicles, truckSmall, truckMedium, truckLarge]]
    dsimp only
    unfold computeOptimizedRoutesChecked
    rw [show lookupLoc [plantA ℝ] "plant-a" = some (plantA ℝ) by
      simp [lookupLoc, plantA]]
    try dsimp only
    rw [if_neg (by norm_num [truckSmall])]
    try dsimp only
    rw [if_neg (by norm_num [loadFactor, truckSmall, min_def])]
    try dsimp only
    rw [if_neg (by norm_num [loadFactor, truckSmall, min_def])]

/-- Witness for `buildGraph_degenerate_behaviour` at a one-location list. -/
theorem buildGraph_degenerate_behaviour_witness :
    [plantB ℝ].length < 2 ∧ buildGraph [plantB ℝ] = [] :=
  ⟨by simp, buildGraph_degenerate_behaviour.1 [plantB ℝ] (by simp)⟩

/-- C2 (code bug): the live-compute `_create_route_option` constructs its
`RouteOption` without the required `waypoints` field — no ordered list of
waypoint coordinates is ever attached on the live path (pydantic rejects
the construction), whereas the database-path constructor does derive the
waypoints from the path's location coordinates.  Consequently a valid
live-computed request errors instead of returning three options. -/
theorem createRouteOption_missing_waypoints :
    (∀ (option_type : String) (distance : ℝ) (path : List String)
      (locations : List (LocationT ℝ)) (speed fc fp toll co2f lf : ℝ),
      (createRouteOption option_type distance path locations speed fc fp
        toll co2f lf).waypoints = none ∧
      routeOptionValid (createRouteOption option_type distance path locations
        speed fc fp toll co2f lf) = false) ∧
    (∀ (option_type : String) (distance : ℝ) (path_codes : List String)
      (locations : List (LocationT ℝ)) (speed fc fp toll co2f lf : ℝ),
      (createRouteOptionFromDb option_type distance path_codes locations speed
        fc fp toll co2f lf).waypoints = some (waypointsOf path_codes locations)) ∧
    optimizeRoute (mockLocations ℝ) (mockVehicles ℝ)
        ⟨"plant-a", "plant-b", "truck-small", 4⟩ =
      .error (.validationError "waypoints") := by
  refine ⟨fun _ _ _ _ _ _ _ _ _ _ => ⟨rfl, rfl⟩, fun _ _ _ _ _ _ _ _ _ _ => rfl, ?_⟩
  unfold optimizeRoute
  rw [if_neg (by simp [lookupLoc, mockLocations, plantA, plantB])]
  rw [show lookupVeh (mockVehicles ℝ) "truck-small" = some (truckSmall ℝ) by
    simp [lookupVeh, mockVehicles, truckSmall, truckMedium, truckLarge]]
  dsimp only
  unfold computeOptimizedRoutesChecked
  rw [show lookupLoc (mockLocations ℝ) "plant-a" = some (plantA ℝ) by
    simp [lookupLoc, mockLocations, plantA, plantB]]
  dsimp only
  rw [show lookupLoc (mockLocations ℝ) "plant-b" = some (plantB ℝ) by
    simp [lookupLoc, mockLocations, plantA, plantB]]
  try dsimp only
  rw [if_neg (by norm_num [truckSmall])]
  try dsimp only
  rw [if_neg (by norm_num [loadFactor, truckSmall, min_def])]
  try dsimp only
  rw [if_neg (by norm_num [loadFactor, truckSmall, min_def])]

/-! ## Division-by-zero reachability (C10) -/

theorem loadFactor_ne_zero {K : Type*} [LinearOrderedField K] {v : VehicleT K}
    {load : K} (hcap : v.min_capacity < v.max_capacity)
    (hload : load ≠ 2 * v.min_capacity - v.max_capacity) : loadFactor v load ≠ 0 := by
  unfold loadFactor
  intro h
  have hd : v.max_capacity - v.min_capacity ≠ 0 := ne_of_gt (sub_pos.2 hcap)
  rcases le_total (1 + (load - v.min_capacity) / (v.max_capacity - v.min_capacity))
      ((3:K)/2) with hle | hle
  · rw [min_eq_left hle] at h
    apply hload
    field_simp at h
    linarith
  · rw [min_eq_right hle] at h
    norm_num at h

/-- C10, counterexample: with the small truck (`min_capacity = 3 <
5 = max_capacity`, `average_speed = 60 > 0`) and `requested_load = 1 =
2*min_capacity - max_capacity`, the load factor is exactly 0 and the
division `average_speed / load_factor` (line 114) raises
`ZeroDivisionError`: the stated preconditions do not make the
division-by-zero branch unreachable. -/
theorem division_by_zero_reachable_cex :
    (truckSmall ℚ).min_capacity < (truckSmall ℚ).max_capacity ∧
      (0:ℚ) < (truckSmall ℚ).average_speed ∧
      loadFactor (truckSmall ℚ) 1 = 0 ∧
      computeRoutesDivChecked (K := ℚ) 100 "plant-a" "plant-b" [] (truckSmall ℚ) 1 =
        .error .zeroDivision := by
  refine ⟨by norm_num [truckSmall], by norm_num [truckSmall], ?_, ?_⟩
  · norm_num [loadFactor, truckSmall, min_def]
  · unfold computeRoutesDivChecked
    rw [if_neg (by norm_num [truckSmall])]
    rw [if_pos (by norm_num [loadFactor, truckSmall, min_def])]

/-- C10, amended: under `min_capacity < max_capacity`, positive
`average_speed` *and* a requested load different from
`2*min_capacity - max_capacity` (the unique value that makes the load
factor zero), every division of the live-compute and of the
database-configuration valuation is well-defined: the checked evaluations
reach no division-by-zero branch and return the plain results. -/
theorem divisions_welldefined {K : Type*} [LinearOrderedField K] [FloorRing K]
    (d : K) (origin destination : String) (locations : List (LocationT K))
    (v : VehicleT K) (load : K) (req : RouteRequest K) (rc : RouteConfigT K)
    (hcap : v.min_capacity < v.max_capacity) (hspeed : 0 < v.average_speed)
    (hload : load ≠ 2 * v.min_capacity - v.max_capacity)
    (hload2 : req.load_capacity ≠ 2 * v.min_capacity - v.max_capacity) :
    computeRoutesDivChecked d origin destination locations v load =
        .ok (computeRoutesFromDistance d origin destination locations v load) ∧
      generateFromDbDivChecked req rc locations v =
        .ok (generateFromDb req rc locations v) := by
  have hd : v.max_capacity - v.min_capacity ≠ 0 := ne_of_gt (sub_pos.2 hcap)
  have hlf : loadFactor v load ≠ 0 := loadFactor_ne_zero hcap hload
  have hlf2 : loadFactor v req.load_capacity ≠ 0 := loadFactor_ne_zero hcap hload2
  have hs1 : v.average_speed / loadFactor v load ≠ 0 :=
    div_ne_zero (ne_of_gt hspeed) hlf
  have hs2 : v.average_speed / loadFactor v req.load_capacity ≠ 0 :=
    div_ne_zero (ne_of_gt hspeed) hlf2
  constructor
  · unfold computeRoutesDivChecked
    rw [if_neg hd, if_neg hlf, if_neg hs1,
      if_neg (mul_ne_zero hs1 (by norm_num)), if_neg (mul_ne_zero hs1 (by norm_num))]
  · unfold generateFromDbDivChecked
    rw [if_neg hd, if_neg hlf2, if_neg hs2,
      if_neg (mul_ne_zero hs2 (by norm_num)), if_neg (mul_ne_zero hs2 (by norm_num))]

/-- Witness for `divisions_welldefined` with the small truck and load 4. -/
theorem divisions_welldefined_witness :
    ((truckSmall ℚ).min_capacity < (truckSmall ℚ).max_capacity ∧
      (0:ℚ) < (truckSmall ℚ).average_speed ∧
      (4:ℚ) ≠ 2 * (truckSmall ℚ).min_capacity - (truckSmall ℚ).max_capacity) ∧
    computeRoutesDivChecked (K := ℚ) 100 "plant-a" "plant-b" [] (truckSmall ℚ) 4 =
      .ok (computeRoutesFromDistance (K := ℚ) 100 "plant-a" "plant-b" []
        (truckSmall ℚ) 4) :=
  ⟨⟨by norm_num [truckSmall], by norm_num [truckSmall], by norm_num [truckSmall]⟩,
   (divisions_welldefined (K := ℚ) 100 "plant-a" "plant-b" [] (truckSmall ℚ) 4
     ⟨"plant-a", "plant-b", "truck-small", 4⟩
     ⟨"plant-a", "plant-b", "truck-small", 4, 100, 110, 105, ["plant-a", "plant-b"],
       ["plant-a", "plant-b"], ["plant-a", "plant-b"]⟩
     (by norm_num [truckSmall]) (by norm_num [truckSmall])
     (by norm_num [truckSmall]) (by norm_num [truckSmall])).1⟩

end PukPuk
